import Mathlib

/-!
ATXflip: soft power switching for an ATX power supply.

A shallow embedding of `src/main.c` (the whole firmware is the function `main`)
and theorems about its button state machine.

Model:

* Machine integers are natural numbers.  The 8-bit I/O registers `DDRB` and
  `PORTB` are reduced modulo 256 on every store, the 16-bit `holdTime` modulo
  65536 on its increment.  The `uint8_t` variables `mode`, `lastStateSave`,
  `state` and `turboState` only ever receive a bit, a stored byte, or 0/1.
* The EEPROM is a map from addresses to bytes.
* The program never terminates and blocks on the button pin.  Every evaluation of
  a loop condition `bitRead(PINB, PWRBTN)` consumes one sample of the input
  register `PINB`; `step` runs the program from one such evaluation to the
  next.  The four loops that read the pin are the four program points `Loc`.
* Everything the firmware does to the outside world (delays, EEPROM accesses,
  register stores) is appended to `Machine.log`, oldest first.
* An output is asserted when its bit of `DDRB` is set: the firmware switches the
  pin between input (released) and output (driven).
-/

namespace ATXflip

/-! ## Constants and bit macros (main.c lines 16-29) -/

/-- Power-on switch pin. -/
abbrev PWRBTN : Nat := 4
/-- Turbo pin of the mainboard. -/
abbrev TURBO : Nat := 3
/-- Power-on pin of the ATX supply. -/
abbrev PSON : Nat := 2
/-- Jumper pin: hold 5 seconds to power down. -/
abbrev JMP_ATXBEHAV : Nat := 1
/-- Jumper pin: remember last power state in EEPROM. -/
abbrev JMP_LASTSTATE : Nat := 0
abbrev ATX_TURBOTIME : Nat := 1
abbrev ATX_POWERDOWNTIME : Nat := 5

/-- Macro bitRead: `(((value) >> (bit)) & 0x01)`. -/
def bitRead (value bit : Nat) : Nat := (value >>> bit) &&& 0x01

/-- Macro bitSet on an 8-bit register: `((value) |= (1UL << (bit)))`. -/
def bitSet (value bit : Nat) : Nat := (value ||| (1 <<< bit)) % 256

/-- Macro bitClear on an 8-bit register: `((value) &= ~(1UL << (bit)))`; the
complement is taken in the 32 bits of `1UL`. -/
def bitClear (value bit : Nat) : Nat := (value &&& (0xFFFFFFFF - (1 <<< bit))) % 256

/-- Macro bitWrite: `(bitvalue ? bitSet(value, bit) : bitClear(value, bit))`. -/
def bitWrite (value bit bitvalue : Nat) : Nat :=
  if bitvalue ≠ 0 then bitSet value bit else bitClear value bit

/-- The C operator `!` on a byte. -/
def lnot (x : Nat) : Nat := if x = 0 then 1 else 0

/-! ## Machine state -/

/-- Externally visible actions of the firmware. -/
inductive Event where
  | delay (ms : Nat)
  | eepromRead (addr : Nat)
  | eepromWrite (addr : Nat) (value : Nat)
  | ddrb (value : Nat)
  | portb (value : Nat)
  deriving DecidableEq, Repr

/-- The loops of `main` that poll the button pin. -/
inductive Loc where
  /-- Line 74: powered off, waiting for the falling edge. -/
  | offFalling
  /-- Line 84: just powered on, waiting for the rising edge. -/
  | offRising
  /-- Line 91: powered on, waiting for the falling edge. -/
  | onFalling
  /-- Line 105: button held, waiting for the rising edge. -/
  | onRising
  deriving DecidableEq, Repr

/-- Variables of `main`, the registers it writes, the EEPROM and the log. -/
structure Machine where
  pc : Loc
  mode : Nat
  lastStateSave : Nat
  state : Nat
  holdTime : Nat
  DDRB : Nat
  PORTB : Nat
  eeprom : Nat → Nat
  log : List Event

namespace Machine

/-- Busy wait `_delay_ms(ms)`. -/
def delay_ms (m : Machine) (ms : Nat) : Machine :=
  { m with log := m.log ++ [Event.delay ms] }

/-- Library call `eeprom_read_byte(addr)`: the byte read and the machine after the read. -/
def eeprom_read_byte (m : Machine) (addr : Nat) : Nat × Machine :=
  (m.eeprom addr, { m with log := m.log ++ [Event.eepromRead addr] })

/-- Library call `eeprom_write_byte(addr, value)`. -/
def eeprom_write_byte (m : Machine) (addr value : Nat) : Machine :=
  { m with eeprom := Function.update m.eeprom addr value,
           log := m.log ++ [Event.eepromWrite addr value] }

/-- A store to the data direction register. -/
def setDDRB (m : Machine) (value : Nat) : Machine :=
  { m with DDRB := value, log := m.log ++ [Event.ddrb value] }

/-- A store to the port register. -/
def setPORTB (m : Machine) (value : Nat) : Machine :=
  { m with PORTB := value, log := m.log ++ [Event.portb value] }

end Machine

/-! ## The program -/

/-- Line 88, reached when the block of line 71 is left or skipped: the test
`state != 0` enters the wait of line 91; otherwise the outer loop starts over and
its test `state == 0` of line 71 enters the wait of line 74. -/
def afterFirstIf (m : Machine) : Machine :=
  if m.state ≠ 0 then { m with pc := Loc.onFalling } else { m with pc := Loc.offFalling }

/-- Top of `while(1)`, line 71. -/
def loopTop (m : Machine) : Machine :=
  if m.state = 0 then { m with pc := Loc.offFalling } else afterFirstIf m

/-- Lines 37-65: everything before `while(1)`.  `PINB` is the input register as
read at lines 45-46; `DDRB0` and `PORTB0` are the register contents at entry. -/
def boot (PINB DDRB0 PORTB0 : Nat) (eeprom0 : Nat → Nat) : Machine :=
  let m : Machine :=
    { pc := Loc.offFalling, mode := 0, lastStateSave := 0, state := 0, holdTime := 0,
      DDRB := DDRB0, PORTB := PORTB0, eeprom := eeprom0, log := [] }
  let m := m.setPORTB (bitSet m.PORTB PWRBTN)
  let m := m.setPORTB (bitSet m.PORTB JMP_ATXBEHAV)
  let m := m.setPORTB (bitSet m.PORTB JMP_LASTSTATE)
  let m := { m with mode := bitRead PINB JMP_ATXBEHAV }
  let m := { m with lastStateSave := bitRead PINB JMP_LASTSTATE }
  let m := m.delay_ms 100
  let m := { m with state := 0 }
  let m :=
    if m.lastStateSave ≠ 0 then
      let r := m.eeprom_read_byte 2
      let turboState := r.1
      let m := r.2
      let m := m.setDDRB (bitWrite m.DDRB TURBO turboState)
      let r := m.eeprom_read_byte 1
      let m : Machine := { r.2 with state := r.1 }
      if m.state ≠ 0 then m.setDDRB (bitWrite m.DDRB PSON 1) else m
    else m
  loopTop m

/-- One evaluation of a loop condition on the sample `PINB`, and the code that
follows it up to the next evaluation of a loop condition (lines 68-145). -/
def step (m : Machine) (PINB : Nat) : Machine :=
  match m.pc with
  | Loc.offFalling =>
    if bitRead PINB PWRBTN ≠ 0 then m.delay_ms 1
    else
      let m := { m with state := 1 }
      let m := m.setDDRB (bitWrite m.DDRB PSON 1)
      let m := m.eeprom_write_byte 1 m.state
      let m := m.delay_ms 100
      { m with pc := Loc.offRising }
  | Loc.offRising =>
    if bitRead PINB PWRBTN = 0 then m.delay_ms 1
    else afterFirstIf m
  | Loc.onFalling =>
    if bitRead PINB PWRBTN ≠ 0 then m.delay_ms 1
    else
      let m :=
        if m.mode = 0 then
          let m := { m with state := 0 }
          let m := m.setDDRB (bitWrite m.DDRB PSON 0)
          m.eeprom_write_byte 1 m.state
        else m
      let m := m.delay_ms 10
      { m with holdTime := 0, pc := Loc.onRising }
  | Loc.onRising =>
    if bitRead PINB PWRBTN = 0 then
      if m.mode ≠ 0 then
        let m := { m with holdTime := (m.holdTime + 1) % 65536 }
        let m := if m.holdTime = 65530 then { m with holdTime := 0 } else m
        let m :=
          if m.holdTime > ATX_POWERDOWNTIME * 100 then
            let m := { m with state := 0 }
            let m := m.setDDRB (bitWrite m.DDRB PSON 0)
            m.eeprom_write_byte 1 m.state
          else m
        m.delay_ms 10
      else m.delay_ms 10
    else
      let m :=
        if m.mode ≠ 0 then
          if m.holdTime < ATX_POWERDOWNTIME * 100 ∧ m.holdTime > ATX_TURBOTIME * 100 then
            let r := m.eeprom_read_byte 2
            let turboState := r.1
            let m := r.2
            let turboState := lnot turboState
            let m := m.setDDRB (bitWrite m.DDRB TURBO turboState)
            m.eeprom_write_byte 2 turboState
          else m
        else m
      loopTop m

/-- The control loop on a sequence of samples of `PINB`. -/
def run (m : Machine) (samples : List Nat) : Machine :=
  samples.foldl step m

/-- The firmware: boot, then the control loop on the samples. -/
def main (PINB DDRB0 PORTB0 : Nat) (eeprom0 : Nat → Nat) (samples : List Nat) : Machine :=
  run (boot PINB DDRB0 PORTB0 eeprom0) samples



/-! ## Observations -/

/-- The button is pressed in a sample of `PINB`: the pin reads low. -/
def pressed (PINB : Nat) : Prop := bitRead PINB PWRBTN = 0

instance (PINB : Nat) : Decidable (pressed PINB) := by unfold pressed; infer_instance

/-- Level of the power-enable output: bit `PSON` of `DDRB`. -/
def psonOut (m : Machine) : Nat := bitRead m.DDRB PSON

/-- Level of the turbo output: bit `TURBO` of `DDRB`. -/
def turboOut (m : Machine) : Nat := bitRead m.DDRB TURBO

/-- Events of the k-th poll of an ATX-mode hold that started with `DDRB = d`. -/
def atxPollLog (d k : Nat) : List Event :=
  if 500 < k % 65530 then
    [Event.ddrb (bitClear d PSON), Event.eepromWrite 1 0, Event.delay 10]
  else [Event.delay 10]

/-- Events of the first n polls of an ATX-mode hold that started with `DDRB = d`. -/
def atxHoldLog (d : Nat) : Nat → List Event
  | 0 => []
  | n + 1 => atxHoldLog d n ++ atxPollLog d (n + 1)

/-- The machine after the turbo toggle of lines 136-139. -/
def toggleTurbo (m : Machine) : Machine :=
  { m with DDRB := bitWrite m.DDRB TURBO (lnot (m.eeprom 2)),
           eeprom := Function.update m.eeprom 2 (lnot (m.eeprom 2)),
           log := m.log ++ [Event.eepromRead 2,
             Event.ddrb (bitWrite m.DDRB TURBO (lnot (m.eeprom 2))),
             Event.eepromWrite 2 (lnot (m.eeprom 2))] }

/-- The power-enable output mirrors `state`: on iff `state ≠ 0`. -/
def powerConsistent (m : Machine) : Prop := psonOut m = if m.state = 0 then 0 else 1

/-- Byte 1 of the EEPROM holds `state`. -/
def byte1Consistent (m : Machine) : Prop := m.eeprom 1 = m.state

/-- The turbo output mirrors byte 2 of the EEPROM: on iff the byte is nonzero. -/
def turboConsistent (m : Machine) : Prop := turboOut m = if m.eeprom 2 = 0 then 0 else 1

/-- Two machines agree on everything the control flow and the outputs depend on:
program point, `mode`, `state`, `holdTime` and `DDRB`; in ATX mode also on
whether byte 2 of the EEPROM is zero. -/
def outputEquiv (m1 m2 : Machine) : Prop :=
  m1.pc = m2.pc ∧ m1.mode = m2.mode ∧ m1.state = m2.state ∧ m1.holdTime = m2.holdTime ∧
    m1.DDRB = m2.DDRB ∧ (m1.mode ≠ 0 → (m1.eeprom 2 = 0 ↔ m2.eeprom 2 = 0))

/-- Two machines agree on the program point, `mode`, `state`, `holdTime` and the
level of the power-enable output. -/
def powerEquiv (m1 m2 : Machine) : Prop :=
  m1.pc = m2.pc ∧ m1.mode = m2.mode ∧ m1.state = m2.state ∧ m1.holdTime = m2.holdTime ∧
    psonOut m1 = psonOut m2

/-- The event is a write to EEPROM address `addr`. -/
def isWriteTo (addr : Nat) : Event → Bool
  | Event.eepromWrite a _ => a == addr
  | _ => false

/-- Number of writes to EEPROM address `addr` in a log. -/
def writesTo (addr : Nat) (log : List Event) : Nat := log.countP (isWriteTo addr)

/-- Every EEPROM write in the log went to byte 1 or 2 with value 0 or 1, and a
byte written at least once holds 0 or 1. -/
def writesNormalised (m : Machine) : Prop :=
  ∀ a v, Event.eepromWrite a v ∈ m.log →
    ((a = 1 ∨ a = 2) ∧ (v = 0 ∨ v = 1)) ∧ (m.eeprom a = 0 ∨ m.eeprom a = 1)

/-! ## Bit lemmas -/

theorem bitRead_eq (v b : Nat) : bitRead v b = if v.testBit b then 1 else 0 := by
  unfold bitRead
  rw [Nat.and_one_is_mod, Nat.testBit_to_div_mod, Nat.shiftRight_eq_div_pow]
  rcases Nat.mod_two_eq_zero_or_one (v / 2 ^ b) with h | h <;> simp [h]

theorem testBit_bitSet (v b i : Nat) :
    (bitSet v b).testBit i = (decide (i < 8) && (v.testBit i || decide (b = i))) := by
  unfold bitSet
  rw [show (256 : Nat) = 2 ^ 8 by norm_num, Nat.testBit_mod_two_pow, Nat.testBit_or,
    Nat.one_shiftLeft, Nat.testBit_two_pow]

theorem testBit_bitClear (v b i : Nat) (hb : b < 32) :
    (bitClear v b).testBit i = (decide (i < 8) && (v.testBit i && !decide (b = i))) := by
  unfold bitClear
  have h1 : (0xFFFFFFFF : Nat) - 1 <<< b = 2 ^ 32 - (2 ^ b + 1) := by
    rw [Nat.one_shiftLeft]
    generalize 2 ^ b = x
    omega
  have h2 : 2 ^ b < 2 ^ 32 := Nat.pow_lt_pow_right (by norm_num) hb
  rw [show (256 : Nat) = 2 ^ 8 by norm_num, Nat.testBit_mod_two_pow, Nat.testBit_and, h1,
    Nat.testBit_two_pow_sub_succ h2, Nat.testBit_two_pow]
  by_cases h8 : i < 8
  · have : i < 32 := by omega
    simp [h8, this]
  · simp [h8]

theorem bitClear_bitClear (v b : Nat) (hb : b < 32) : bitClear (bitClear v b) b = bitClear v b := by
  apply Nat.eq_of_testBit_eq
  intro i
  simp only [testBit_bitClear _ _ _ hb]
  cases decide (i < 8) <;> cases v.testBit i <;> cases decide (b = i) <;> rfl

theorem bitRead_bitSet_self (v b : Nat) (hb : b < 8) : bitRead (bitSet v b) b = 1 := by
  simp [bitRead_eq, testBit_bitSet, hb]

theorem bitRead_bitSet_other (v b c : Nat) (hc : c < 8) (hbc : b ≠ c) :
    bitRead (bitSet v b) c = bitRead v c := by
  simp [bitRead_eq, testBit_bitSet, hc, hbc]

theorem bitRead_bitClear_self (v b : Nat) (hb : b < 32) : bitRead (bitClear v b) b = 0 := by
  simp [bitRead_eq, testBit_bitClear _ _ _ hb]

theorem bitRead_bitClear_other (v b c : Nat) (hb : b < 32) (hc : c < 8) (hbc : b ≠ c) :
    bitRead (bitClear v b) c = bitRead v c := by
  simp [bitRead_eq, testBit_bitClear _ _ _ hb, hc, hbc]

theorem bitRead_le_one (v b : Nat) : bitRead v b = 0 ∨ bitRead v b = 1 := by
  rw [bitRead_eq]; split <;> simp

/-! ## Running the control loop -/

theorem run_nil (m : Machine) : run m [] = m := rfl

theorem run_cons (m : Machine) (p : Nat) (ps : List Nat) :
    run m (p :: ps) = run (step m p) ps := rfl

theorem run_append (m : Machine) (ps qs : List Nat) :
    run m (ps ++ qs) = run (run m ps) qs := by
  simp [run, List.foldl_append]

theorem run_snoc (m : Machine) (ps : List Nat) (p : Nat) :
    run m (ps ++ [p]) = step (run m ps) p := by
  simp [run, List.foldl_append]

/-- One poll of the hold loop in ATX mode with the button still pressed. -/
theorem step_onRising_atx_pressed (m : Machine) (p : Nat) (hpc : m.pc = Loc.onRising)
    (hmode : m.mode ≠ 0) (hp : pressed p) (hh : m.holdTime < 65530) :
    step m p =
      if 500 < (m.holdTime + 1) % 65530 then
        { m with holdTime := (m.holdTime + 1) % 65530, state := 0,
                 DDRB := bitClear m.DDRB PSON,
                 eeprom := Function.update m.eeprom 1 0,
                 log := m.log ++ [Event.ddrb (bitClear m.DDRB PSON), Event.eepromWrite 1 0,
                   Event.delay 10] }
      else { m with holdTime := (m.holdTime + 1) % 65530, log := m.log ++ [Event.delay 10] } := by
  unfold pressed at hp
  have h1 : (m.holdTime + 1) % 65536 = m.holdTime + 1 := by omega
  by_cases hw : m.holdTime + 1 = 65530
  · have h2 : (m.holdTime + 1) % 65530 = 0 := by omega
    simp [step, hpc, hmode, hp, h1, hw, h2, Machine.delay_ms, ATX_POWERDOWNTIME]
  · have h2 : (m.holdTime + 1) % 65530 = m.holdTime + 1 := by omega
    by_cases h5 : 500 < m.holdTime + 1
    · simp [step, hpc, hmode, hp, h1, hw, h2, h5, Machine.delay_ms, Machine.setDDRB, ATX_POWERDOWNTIME,
        Machine.eeprom_write_byte, bitWrite]
    · simp [step, hpc, hmode, hp, h1, hw, h2, h5, Machine.delay_ms, ATX_POWERDOWNTIME]

theorem atxHoldLog_succ (d n : Nat) :
    atxHoldLog d (n + 1) = atxHoldLog d n ++ atxPollLog d (n + 1) := rfl

/-- Closed form of an ATX-mode hold: the machine after n polls with the button
pressed, starting from the entry of the hold loop (line 104). -/
theorem run_hold_atx (m : Machine) (hpc : m.pc = Loc.onRising) (hmode : m.mode ≠ 0)
    (hh : m.holdTime = 0) (ps : List Nat) (hps : ∀ p ∈ ps, pressed p) :
    run m ps =
      { m with holdTime := ps.length % 65530,
               state := if 500 < ps.length then 0 else m.state,
               DDRB := if 500 < ps.length then bitClear m.DDRB PSON else m.DDRB,
               eeprom := if 500 < ps.length then Function.update m.eeprom 1 0 else m.eeprom,
               log := m.log ++ atxHoldLog m.DDRB ps.length } := by
  induction ps using List.reverseRecOn with
  | nil =>
    obtain ⟨pc, mode, lss, st, ht, ddrb, portb, ee, lg⟩ := m
    simp only at hh
    subst hh
    simp [run_nil, atxHoldLog]
  | append_singleton ps p ih =>
    have hps1 : ∀ q ∈ ps, pressed q := fun q hq => hps q (by simp [hq])
    have hp : pressed p := hps p (by simp)
    rw [run_snoc, ih hps1, step_onRising_atx_pressed _ p ?_ ?_ hp ?_]
    rotate_left
    · exact hpc
    · exact hmode
    · exact Nat.mod_lt _ (by norm_num)
    have hmod : (ps.length % 65530 + 1) % 65530 = (ps.length + 1) % 65530 := by omega
    simp only [hmod, List.length_append, List.length_singleton, atxHoldLog_succ, atxPollLog]
    by_cases h5 : 500 < (ps.length + 1) % 65530
    · have h6 : 500 < ps.length + 1 := lt_of_lt_of_le h5 (Nat.mod_le _ _)
      simp only [h5, h6, if_true]
      by_cases h7 : 500 < ps.length
      · simp [h7, bitClear_bitClear _ PSON (by norm_num)]
      · simp [h7]
    · have h6 : (500 < ps.length + 1) ↔ (500 < ps.length) := by omega
      simp [h5, h6]

/-- A press detected at line 91 in ATX mode: only the debounce delay, then the
hold loop is entered with `holdTime = 0`. -/
theorem step_onFalling_atx_pressed (m : Machine) (p : Nat) (hpc : m.pc = Loc.onFalling)
    (hmode : m.mode ≠ 0) (hp : pressed p) :
    step m p = { m with pc := Loc.onRising, holdTime := 0,
                        log := m.log ++ [Event.delay 10] } := by
  unfold pressed at hp
  simp [step, hpc, hmode, hp, Machine.delay_ms]

/-- A press detected at line 91 in instant mode: lines 95-97, then the debounce delay. -/
theorem step_onFalling_instant_pressed (m : Machine) (p : Nat) (hpc : m.pc = Loc.onFalling)
    (hmode : m.mode = 0) (hp : pressed p) :
    step m p = { m with pc := Loc.onRising, holdTime := 0, state := 0,
                        DDRB := bitClear m.DDRB PSON,
                        eeprom := Function.update m.eeprom 1 0,
                        log := m.log ++ [Event.ddrb (bitClear m.DDRB PSON),
                          Event.eepromWrite 1 0, Event.delay 10] } := by
  unfold pressed at hp
  simp [step, hpc, hmode, hp, Machine.delay_ms, Machine.setDDRB, Machine.eeprom_write_byte,
    bitWrite]

/-- The release seen by the hold loop in ATX mode: lines 132-141, then the top of
the outer loop. -/
theorem step_onRising_atx_released (m : Machine) (r : Nat) (hpc : m.pc = Loc.onRising)
    (hmode : m.mode ≠ 0) (hr : ¬ pressed r) :
    step m r =
      loopTop (if m.holdTime < 500 ∧ 100 < m.holdTime then toggleTurbo m else m) := by
  unfold pressed at hr
  by_cases h : m.holdTime < 500 ∧ 100 < m.holdTime
  · simp [step, hpc, hmode, hr, h, toggleTurbo, Machine.setDDRB, Machine.eeprom_write_byte,
      Machine.eeprom_read_byte, ATX_POWERDOWNTIME, ATX_TURBOTIME]
  · simp only [step, hpc, hmode, hr, ATX_POWERDOWNTIME, ATX_TURBOTIME]
    simp [h]

/-- Closed form of an ATX-mode press at line 91 followed by n polls of the hold
loop with the button pressed. -/
theorem run_atx_press_hold (m : Machine) (p0 : Nat) (ps : List Nat)
    (hpc : m.pc = Loc.onFalling) (hmode : m.mode ≠ 0) (hp0 : pressed p0)
    (hps : ∀ p ∈ ps, pressed p) :
    run m (p0 :: ps) =
      { m with pc := Loc.onRising,
               holdTime := ps.length % 65530,
               state := if 500 < ps.length then 0 else m.state,
               DDRB := if 500 < ps.length then bitClear m.DDRB PSON else m.DDRB,
               eeprom := if 500 < ps.length then Function.update m.eeprom 1 0 else m.eeprom,
               log := m.log ++ [Event.delay 10] ++ atxHoldLog m.DDRB ps.length } := by
  rw [run_cons, step_onFalling_atx_pressed m p0 hpc hmode hp0, run_hold_atx _ ?_ ?_ ?_ ps hps]
  · rfl
  · exact hmode
  · rfl

/-- Closed form of a whole ATX-mode gesture: press, n polls, release. -/
theorem run_atx_gesture (m : Machine) (p0 r : Nat) (ps : List Nat)
    (hpc : m.pc = Loc.onFalling) (hmode : m.mode ≠ 0) (hp0 : pressed p0)
    (hps : ∀ p ∈ ps, pressed p) (hr : ¬ pressed r) :
    run m (p0 :: ps ++ [r]) =
      loopTop (if ps.length % 65530 < 500 ∧ 100 < ps.length % 65530
        then toggleTurbo (run m (p0 :: ps)) else run m (p0 :: ps)) := by
  have h := run_atx_press_hold m p0 ps hpc hmode hp0 hps
  rw [run_snoc, step_onRising_atx_released _ r (by rw [h]) (by rw [h]; exact hmode) hr]
  rw [h]

theorem atxHoldLog_short (d n : Nat) (hn : n ≤ 500) :
    atxHoldLog d n = List.replicate n (Event.delay 10) := by
  induction n with
  | zero => rfl
  | succ n ih =>
    have h1 : (n + 1) % 65530 = n + 1 := by omega
    have h2 : ¬ 500 < n + 1 := by omega
    rw [atxHoldLog_succ, ih (by omega), atxPollLog, h1, if_neg h2, List.replicate_succ']

theorem pressed_of_mem_take (ps : List Nat) (k : Nat) (hps : ∀ p ∈ ps, pressed p) :
    ∀ p ∈ ps.take k, pressed p :=
  fun p hp => hps p (List.mem_of_mem_take hp)

theorem loopTop_eq (m : Machine) :
    loopTop m = { m with pc := if m.state = 0 then Loc.offFalling else Loc.onFalling } := by
  unfold loopTop afterFirstIf
  by_cases h : m.state = 0 <;> simp [h]

theorem afterFirstIf_eq (m : Machine) :
    afterFirstIf m = { m with pc := if m.state = 0 then Loc.offFalling else Loc.onFalling } := by
  unfold afterFirstIf
  by_cases h : m.state = 0 <;> simp [h]

theorem bitRead_bitWrite_self (v b x : Nat) (hb : b < 8) :
    bitRead (bitWrite v b x) b = if x ≠ 0 then 1 else 0 := by
  unfold bitWrite
  by_cases hx : x ≠ 0
  · rw [if_pos hx, if_pos hx, bitRead_bitSet_self v b hb]
  · rw [if_neg hx, if_neg hx, bitRead_bitClear_self v b (by omega)]

theorem bitRead_bitWrite_other (v b c x : Nat) (hb : b < 8) (hc : c < 8) (hbc : b ≠ c) :
    bitRead (bitWrite v b x) c = bitRead v c := by
  unfold bitWrite
  by_cases hx : x ≠ 0
  · rw [if_pos hx, bitRead_bitSet_other v b c hc hbc]
  · rw [if_neg hx, bitRead_bitClear_other v b c (by omega) hc hbc]

theorem lnot_ne_zero_iff (x : Nat) : lnot x ≠ 0 ↔ x = 0 := by
  unfold lnot; split <;> simp [*]

/-- The turbo toggle drives the output to the inverted byte and stores it. -/
theorem turboOut_toggleTurbo (m : Machine) :
    turboOut (toggleTurbo m) = lnot (m.eeprom 2) ∧
      (toggleTurbo m).eeprom 2 = lnot (m.eeprom 2) := by
  unfold turboOut toggleTurbo
  simp only [Function.update_same, bitRead_bitWrite_self _ TURBO _ (by norm_num)]
  by_cases h : m.eeprom 2 = 0 <;> simp [lnot, h]

theorem psonOut_toggleTurbo (m : Machine) : psonOut (toggleTurbo m) = psonOut m := by
  unfold psonOut toggleTurbo
  exact bitRead_bitWrite_other _ TURBO PSON _ (by norm_num) (by norm_num) (by norm_num)

theorem mem_atxHoldLog (d n : Nat) (e : Event) (he : e ∈ atxHoldLog d n) :
    e = Event.delay 10 ∨ e = Event.ddrb (bitClear d PSON) ∨ e = Event.eepromWrite 1 0 := by
  induction n with
  | zero => simp [atxHoldLog] at he
  | succ n ih =>
    rw [atxHoldLog_succ, List.mem_append] at he
    rcases he with he | he
    · exact ih he
    · unfold atxPollLog at he
      split at he
      · simp only [List.mem_cons, List.mem_singleton, List.not_mem_nil, or_false] at he
        rcases he with he | he | he
        · exact Or.inr (Or.inl he)
        · exact Or.inr (Or.inr he)
        · exact Or.inl he
      · simp only [List.mem_singleton] at he
        exact Or.inl he

theorem loopTop_eeprom (m : Machine) : (loopTop m).eeprom = m.eeprom := by
  rw [loopTop_eq]

theorem loopTop_DDRB (m : Machine) : (loopTop m).DDRB = m.DDRB := by
  rw [loopTop_eq]

theorem loopTop_state (m : Machine) : (loopTop m).state = m.state := by
  rw [loopTop_eq]

theorem loopTop_log (m : Machine) : (loopTop m).log = m.log := by
  rw [loopTop_eq]

theorem turboOut_loopTop (m : Machine) : turboOut (loopTop m) = turboOut m := by
  unfold turboOut; rw [loopTop_DDRB]

theorem psonOut_loopTop (m : Machine) : psonOut (loopTop m) = psonOut m := by
  unfold psonOut; rw [loopTop_DDRB]

/-- One poll of the hold loop in instant mode with the button still pressed. -/
theorem step_onRising_instant_pressed (m : Machine) (p : Nat) (hpc : m.pc = Loc.onRising)
    (hmode : m.mode = 0) (hp : pressed p) :
    step m p = { m with log := m.log ++ [Event.delay 10] } := by
  unfold pressed at hp
  simp [step, hpc, hmode, hp, Machine.delay_ms]

/-- The release seen by the hold loop in instant mode. -/
theorem step_onRising_instant_released (m : Machine) (r : Nat) (hpc : m.pc = Loc.onRising)
    (hmode : m.mode = 0) (hr : ¬ pressed r) : step m r = loopTop m := by
  unfold pressed at hr
  simp [step, hpc, hmode, hr]

/-- The hold loop in instant mode only waits. -/
theorem run_hold_instant (m : Machine) (hpc : m.pc = Loc.onRising) (hmode : m.mode = 0)
    (ps : List Nat) (hps : ∀ p ∈ ps, pressed p) :
    run m ps = { m with log := m.log ++ List.replicate ps.length (Event.delay 10) } := by
  induction ps using List.reverseRecOn with
  | nil => simp [run_nil]
  | append_singleton ps p ih =>
    have hps1 : ∀ q ∈ ps, pressed q := fun q hq => hps q (by simp [hq])
    have hp : pressed p := hps p (by simp)
    rw [run_snoc, ih hps1, step_onRising_instant_pressed _ p ?_ ?_ hp]
    · simp [List.replicate_succ']
    · exact hpc
    · exact hmode

/-- A press detected at line 74: lines 76-81. -/
theorem step_offFalling_pressed (m : Machine) (p : Nat) (hpc : m.pc = Loc.offFalling)
    (hp : pressed p) :
    step m p = { m with pc := Loc.offRising, state := 1,
                        DDRB := bitSet m.DDRB PSON,
                        eeprom := Function.update m.eeprom 1 1,
                        log := m.log ++ [Event.ddrb (bitSet m.DDRB PSON),
                          Event.eepromWrite 1 1, Event.delay 100] } := by
  unfold pressed at hp
  simp [step, hpc, hp, Machine.delay_ms, Machine.setDDRB, Machine.eeprom_write_byte, bitWrite]

/-- One iteration of the wait of line 84 with the button still pressed. -/
theorem step_offRising_pressed (m : Machine) (p : Nat) (hpc : m.pc = Loc.offRising)
    (hp : pressed p) :
    step m p = { m with log := m.log ++ [Event.delay 1] } := by
  unfold pressed at hp
  simp [step, hpc, hp, Machine.delay_ms]

/-- The release seen by the wait of line 84. -/
theorem step_offRising_released (m : Machine) (r : Nat) (hpc : m.pc = Loc.offRising)
    (hr : ¬ pressed r) : step m r = afterFirstIf m := by
  unfold pressed at hr
  simp [step, hpc, hr]

/-- The wait of line 84 only waits. -/
theorem run_offRising_pressed (m : Machine) (hpc : m.pc = Loc.offRising)
    (ps : List Nat) (hps : ∀ p ∈ ps, pressed p) :
    run m ps = { m with log := m.log ++ List.replicate ps.length (Event.delay 1) } := by
  induction ps using List.reverseRecOn with
  | nil => simp [run_nil]
  | append_singleton ps p ih =>
    have hps1 : ∀ q ∈ ps, pressed q := fun q hq => hps q (by simp [hq])
    have hp : pressed p := hps p (by simp)
    rw [run_snoc, ih hps1, step_offRising_pressed _ p ?_ hp]
    · simp [List.replicate_succ']
    · exact hpc

/-- Closed form of an instant-mode press at line 91 followed by n polls. -/
theorem run_instant_press_hold (m : Machine) (p0 : Nat) (ps : List Nat)
    (hpc : m.pc = Loc.onFalling) (hmode : m.mode = 0) (hp0 : pressed p0)
    (hps : ∀ p ∈ ps, pressed p) :
    run m (p0 :: ps) =
      { m with pc := Loc.onRising, holdTime := 0, state := 0,
               DDRB := bitClear m.DDRB PSON,
               eeprom := Function.update m.eeprom 1 0,
               log := m.log ++ [Event.ddrb (bitClear m.DDRB PSON), Event.eepromWrite 1 0,
                 Event.delay 10] ++ List.replicate ps.length (Event.delay 10) } := by
  rw [run_cons, step_onFalling_instant_pressed m p0 hpc hmode hp0, run_hold_instant _ ?_ ?_ ps hps]
  · rfl
  · exact hmode

/-- Closed form of a power-on press at line 74 followed by n iterations of the
wait of line 84. -/
theorem run_off_press_hold (m : Machine) (p0 : Nat) (ps : List Nat)
    (hpc : m.pc = Loc.offFalling) (hp0 : pressed p0) (hps : ∀ p ∈ ps, pressed p) :
    run m (p0 :: ps) =
      { m with pc := Loc.offRising, state := 1,
               DDRB := bitSet m.DDRB PSON,
               eeprom := Function.update m.eeprom 1 1,
               log := m.log ++ [Event.ddrb (bitSet m.DDRB PSON), Event.eepromWrite 1 1,
                 Event.delay 100] ++ List.replicate ps.length (Event.delay 1) } := by
  rw [run_cons, step_offFalling_pressed m p0 hpc hp0, run_offRising_pressed _ ?_ ps hps]
  rfl

/-! ## Invariants of the control loop -/

theorem step_powerConsistent (m : Machine) (p : Nat) (h : powerConsistent m) :
    powerConsistent (step m p) := by
  unfold powerConsistent psonOut at h ⊢
  have hs := bitRead_bitWrite_self m.DDRB PSON 1 (by norm_num)
  have hc := bitRead_bitWrite_self m.DDRB PSON 0 (by norm_num)
  have ht := bitRead_bitWrite_other m.DDRB TURBO PSON (lnot (m.eeprom 2)) (by norm_num)
    (by norm_num) (by norm_num)
  cases hpc : m.pc <;> simp only [step, hpc] <;> split_ifs <;>
    simp_all [Machine.delay_ms, Machine.setDDRB, Machine.eeprom_write_byte,
      Machine.eeprom_read_byte, loopTop_eq, afterFirstIf_eq]

theorem step_byte1Consistent (m : Machine) (p : Nat) (h : byte1Consistent m) :
    byte1Consistent (step m p) := by
  unfold byte1Consistent at h ⊢
  cases hpc : m.pc <;> simp only [step, hpc] <;> split_ifs <;>
    simp_all [Machine.delay_ms, Machine.setDDRB, Machine.eeprom_write_byte,
      Machine.eeprom_read_byte, loopTop_eq, afterFirstIf_eq]

theorem step_turboConsistent (m : Machine) (p : Nat) (h : turboConsistent m) :
    turboConsistent (step m p) := by
  unfold turboConsistent turboOut at h ⊢
  have hs := bitRead_bitWrite_other m.DDRB PSON TURBO 1 (by norm_num) (by norm_num) (by norm_num)
  have hc := bitRead_bitWrite_other m.DDRB PSON TURBO 0 (by norm_num) (by norm_num) (by norm_num)
  have ht := bitRead_bitWrite_self m.DDRB TURBO (lnot (m.eeprom 2)) (by norm_num)
  have hl := lnot_ne_zero_iff (m.eeprom 2)
  cases hpc : m.pc <;> simp only [step, hpc] <;> split_ifs <;>
    simp_all [Machine.delay_ms, Machine.setDDRB, Machine.eeprom_write_byte,
      Machine.eeprom_read_byte, loopTop_eq, afterFirstIf_eq]

/-- The jumper variables are never assigned by the control loop. -/
theorem step_jumpers (m : Machine) (p : Nat) :
    (step m p).mode = m.mode ∧ (step m p).lastStateSave = m.lastStateSave := by
  cases hpc : m.pc <;> simp only [step, hpc] <;> split_ifs <;>
    simp_all [Machine.delay_ms, Machine.setDDRB, Machine.eeprom_write_byte,
      Machine.eeprom_read_byte, loopTop_eq, afterFirstIf_eq]

/-- The control loop writes no EEPROM byte other than bytes 1 and 2. -/
theorem step_eeprom_frame (m : Machine) (p a : Nat) (h1 : a ≠ 1) (h2 : a ≠ 2) :
    (step m p).eeprom a = m.eeprom a := by
  cases hpc : m.pc <;> simp only [step, hpc] <;> split_ifs <;>
    simp_all [Machine.delay_ms, Machine.setDDRB, Machine.eeprom_write_byte,
      Machine.eeprom_read_byte, loopTop_eq, afterFirstIf_eq, Function.update]

/-- The log only grows. -/
theorem step_log (m : Machine) (p : Nat) : ∃ l, (step m p).log = m.log ++ l := by
  cases hpc : m.pc <;> simp only [step, hpc] <;> split_ifs <;>
    simp [Machine.delay_ms, Machine.setDDRB, Machine.eeprom_write_byte,
      Machine.eeprom_read_byte, loopTop_eq, afterFirstIf_eq]

/-- A property preserved by every step holds along every run. -/
theorem run_invariant (P : Machine → Prop) (hstep : ∀ m p, P m → P (step m p))
    (m : Machine) (samples : List Nat) (h : P m) : P (run m samples) := by
  induction samples generalizing m with
  | nil => exact h
  | cons p ps ih => rw [run_cons]; exact ih _ (hstep m p h)

theorem run_jumpers (m : Machine) (samples : List Nat) :
    (run m samples).mode = m.mode ∧ (run m samples).lastStateSave = m.lastStateSave :=
  run_invariant (fun x => x.mode = m.mode ∧ x.lastStateSave = m.lastStateSave)
    (fun x p hx => ⟨(step_jumpers x p).1.trans hx.1, (step_jumpers x p).2.trans hx.2⟩)
    m samples ⟨rfl, rfl⟩

theorem run_eeprom_frame (m : Machine) (samples : List Nat) (a : Nat) (h1 : a ≠ 1) (h2 : a ≠ 2) :
    (run m samples).eeprom a = m.eeprom a :=
  run_invariant (fun x => x.eeprom a = m.eeprom a)
    (fun x p hx => (step_eeprom_frame x p a h1 h2).trans hx) m samples rfl

theorem run_log (m : Machine) (samples : List Nat) : ∃ l, (run m samples).log = m.log ++ l :=
  run_invariant (fun x => ∃ l, x.log = m.log ++ l)
    (fun x p hx => by
      obtain ⟨l, hl⟩ := hx
      obtain ⟨l2, hl2⟩ := step_log x p
      exact ⟨l ++ l2, by rw [hl2, hl, List.append_assoc]⟩)
    m samples ⟨[], by simp⟩

/-! ## The boot sequence -/

/-- Boot with `lastStateSave ≠ 0`: the stored bytes are loaded and applied. -/
theorem boot_load (PINB DDRB0 PORTB0 : Nat) (eeprom0 : Nat → Nat)
    (hl : bitRead PINB JMP_LASTSTATE ≠ 0) :
    (boot PINB DDRB0 PORTB0 eeprom0).state = eeprom0 1 ∧
    psonOut (boot PINB DDRB0 PORTB0 eeprom0) =
      (if eeprom0 1 = 0 then bitRead DDRB0 PSON else 1) ∧
    turboOut (boot PINB DDRB0 PORTB0 eeprom0) = (if eeprom0 2 = 0 then 0 else 1) ∧
    (boot PINB DDRB0 PORTB0 eeprom0).eeprom = eeprom0 ∧
    (boot PINB DDRB0 PORTB0 eeprom0).pc =
      (if eeprom0 1 = 0 then Loc.offFalling else Loc.onFalling) := by
  have h1 := bitRead_bitWrite_other DDRB0 TURBO PSON (eeprom0 2) (by norm_num) (by norm_num)
    (by norm_num)
  have h2 := bitRead_bitWrite_self DDRB0 TURBO (eeprom0 2) (by norm_num)
  have h3 := bitRead_bitWrite_self (bitWrite DDRB0 TURBO (eeprom0 2)) PSON 1 (by norm_num)
  have h4 := bitRead_bitWrite_other (bitWrite DDRB0 TURBO (eeprom0 2)) PSON TURBO 1
    (by norm_num) (by norm_num) (by norm_num)
  by_cases hs : eeprom0 1 = 0 <;> by_cases ht : eeprom0 2 = 0 <;>
    simp_all [boot, psonOut, turboOut, Machine.delay_ms, Machine.setDDRB, Machine.setPORTB,
      Machine.eeprom_read_byte, loopTop_eq, afterFirstIf_eq]

/-- Boot with `lastStateSave = 0`: the EEPROM is not accessed and `DDRB` is not
written. -/
theorem boot_noload (PINB DDRB0 PORTB0 : Nat) (eeprom0 : Nat → Nat)
    (hl : bitRead PINB JMP_LASTSTATE = 0) :
    boot PINB DDRB0 PORTB0 eeprom0 =
      { pc := Loc.offFalling, mode := bitRead PINB JMP_ATXBEHAV, lastStateSave := 0,
        state := 0, holdTime := 0, DDRB := DDRB0,
        PORTB := bitSet (bitSet (bitSet PORTB0 PWRBTN) JMP_ATXBEHAV) JMP_LASTSTATE,
        eeprom := eeprom0,
        log := [Event.portb (bitSet PORTB0 PWRBTN),
          Event.portb (bitSet (bitSet PORTB0 PWRBTN) JMP_ATXBEHAV),
          Event.portb (bitSet (bitSet (bitSet PORTB0 PWRBTN) JMP_ATXBEHAV) JMP_LASTSTATE),
          Event.delay 100] } := by
  simp [boot, hl, Machine.delay_ms, Machine.setPORTB, loopTop_eq]

/-- The jumper variables after boot are the jumper bits of `PINB`. -/
theorem boot_jumpers (PINB DDRB0 PORTB0 : Nat) (eeprom0 : Nat → Nat) :
    (boot PINB DDRB0 PORTB0 eeprom0).mode = bitRead PINB JMP_ATXBEHAV ∧
    (boot PINB DDRB0 PORTB0 eeprom0).lastStateSave = bitRead PINB JMP_LASTSTATE := by
  by_cases hl : bitRead PINB JMP_LASTSTATE = 0
  · rw [boot_noload _ _ _ _ hl]; exact ⟨rfl, hl.symm⟩
  · by_cases hs : eeprom0 1 = 0 <;>
      simp [boot, hl, hs, Machine.delay_ms, Machine.setDDRB, Machine.setPORTB,
        Machine.eeprom_read_byte, loopTop_eq, afterFirstIf_eq]

/-- After a boot that loads the stored bytes from reset (power-enable bit of
`DDRB` clear), outputs, `state` and EEPROM agree. -/
theorem boot_consistent (PINB DDRB0 PORTB0 : Nat) (eeprom0 : Nat → Nat)
    (hl : bitRead PINB JMP_LASTSTATE ≠ 0) (hd : bitRead DDRB0 PSON = 0) :
    powerConsistent (boot PINB DDRB0 PORTB0 eeprom0) ∧
    byte1Consistent (boot PINB DDRB0 PORTB0 eeprom0) ∧
    turboConsistent (boot PINB DDRB0 PORTB0 eeprom0) := by
  obtain ⟨h1, h2, h3, h4, -⟩ := boot_load PINB DDRB0 PORTB0 eeprom0 hl
  unfold powerConsistent byte1Consistent turboConsistent
  rw [h1, h2, h3, h4, hd]
  refine ⟨?_, rfl, rfl⟩
  split <;> rfl

/-- The control loop never reads `lastStateSave`: a step from a machine with
another value of the variable is the same step. -/
theorem step_lastStateSave (m : Machine) (p x : Nat) :
    step { m with lastStateSave := x } p = { step m p with lastStateSave := x } := by
  cases hpc : m.pc <;> simp only [step, hpc] <;> split_ifs <;>
    simp_all [Machine.delay_ms, Machine.setDDRB, Machine.eeprom_write_byte,
      Machine.eeprom_read_byte, loopTop_eq, afterFirstIf_eq]

/-- After a boot from reset (power-enable bit of `DDRB` clear) the power-enable
output mirrors `state`, whatever the jumpers. -/
theorem boot_powerConsistent (PINB DDRB0 PORTB0 : Nat) (eeprom0 : Nat → Nat)
    (hd : bitRead DDRB0 PSON = 0) : powerConsistent (boot PINB DDRB0 PORTB0 eeprom0) := by
  by_cases hl : bitRead PINB JMP_LASTSTATE = 0
  · rw [boot_noload PINB DDRB0 PORTB0 eeprom0 hl]
    exact hd
  · exact (boot_consistent PINB DDRB0 PORTB0 eeprom0 hl hd).1

/-! ## Two runs side by side -/

theorem step_outputEquiv (m1 m2 : Machine) (p : Nat) (h : outputEquiv m1 m2) :
    outputEquiv (step m1 p) (step m2 p) := by
  obtain ⟨pc1, mode1, lss1, st1, ht1, ddrb1, portb1, ee1, lg1⟩ := m1
  obtain ⟨pc2, mode2, lss2, st2, ht2, ddrb2, portb2, ee2, lg2⟩ := m2
  obtain ⟨h1, h2, h3, h4, h5, h6⟩ := h
  simp only at h1 h2 h3 h4 h5 h6
  subst h1 h2 h3 h4 h5
  unfold outputEquiv
  cases pc1 <;> simp only [step] <;> split_ifs <;>
    simp_all [Machine.delay_ms, Machine.setDDRB, Machine.eeprom_write_byte,
      Machine.eeprom_read_byte, loopTop_eq, afterFirstIf_eq, lnot, bitWrite]

theorem run_outputEquiv (m1 m2 : Machine) (samples : List Nat) (h : outputEquiv m1 m2) :
    outputEquiv (run m1 samples) (run m2 samples) := by
  induction samples generalizing m1 m2 with
  | nil => exact h
  | cons p ps ih => rw [run_cons, run_cons]; exact ih _ _ (step_outputEquiv m1 m2 p h)

theorem step_powerEquiv (m1 m2 : Machine) (p : Nat) (h : powerEquiv m1 m2) :
    powerEquiv (step m1 p) (step m2 p) := by
  obtain ⟨pc1, mode1, lss1, st1, ht1, ddrb1, portb1, ee1, lg1⟩ := m1
  obtain ⟨pc2, mode2, lss2, st2, ht2, ddrb2, portb2, ee2, lg2⟩ := m2
  obtain ⟨h1, h2, h3, h4, h5⟩ := h
  simp only [psonOut] at h1 h2 h3 h4 h5
  subst h1 h2 h3 h4
  have a1 := fun x => bitRead_bitWrite_self ddrb1 PSON x (by norm_num)
  have a2 := fun x => bitRead_bitWrite_self ddrb2 PSON x (by norm_num)
  have b1 := fun x => bitRead_bitWrite_other ddrb1 TURBO PSON x (by norm_num) (by norm_num)
    (by norm_num)
  have b2 := fun x => bitRead_bitWrite_other ddrb2 TURBO PSON x (by norm_num) (by norm_num)
    (by norm_num)
  unfold powerEquiv psonOut
  cases pc1 <;> simp only [step] <;> split_ifs <;>
    simp_all [Machine.delay_ms, Machine.setDDRB, Machine.eeprom_write_byte,
      Machine.eeprom_read_byte, loopTop_eq, afterFirstIf_eq]

theorem run_powerEquiv (m1 m2 : Machine) (samples : List Nat) (h : powerEquiv m1 m2) :
    powerEquiv (run m1 samples) (run m2 samples) := by
  induction samples generalizing m1 m2 with
  | nil => exact h
  | cons p ps ih => rw [run_cons, run_cons]; exact ih _ _ (step_powerEquiv m1 m2 p h)

/-! ## Medium holds -/

/-- Closed form of an ATX-mode gesture with more than 100 and fewer than 500
polls, started at line 91 with `state ≠ 0`. -/
theorem run_atx_medium (m : Machine) (p0 r : Nat) (ps : List Nat)
    (hpc : m.pc = Loc.onFalling) (hmode : m.mode ≠ 0) (hon : m.state ≠ 0)
    (hp0 : pressed p0) (hps : ∀ p ∈ ps, pressed p) (hr : ¬ pressed r)
    (hlo : 100 < ps.length) (hhi : ps.length < 500) :
    run m (p0 :: ps ++ [r]) =
      { m with pc := Loc.onFalling, holdTime := ps.length,
               DDRB := bitWrite m.DDRB TURBO (lnot (m.eeprom 2)),
               eeprom := Function.update m.eeprom 2 (lnot (m.eeprom 2)),
               log := m.log ++ [Event.delay 10] ++ atxHoldLog m.DDRB ps.length ++
                 [Event.eepromRead 2, Event.ddrb (bitWrite m.DDRB TURBO (lnot (m.eeprom 2))),
                   Event.eepromWrite 2 (lnot (m.eeprom 2))] } := by
  have hm : ps.length % 65530 = ps.length := by omega
  have h5 : ¬ 500 < ps.length := by omega
  rw [run_atx_gesture m p0 r ps hpc hmode hp0 hps hr, hm, if_pos ⟨hhi, hlo⟩,
    run_atx_press_hold m p0 ps hpc hmode hp0 hps, loopTop_eq]
  simp [h5, hm, toggleTurbo, hon]

/-- Turbo output and byte 2 after two consecutive medium holds. -/
theorem run_atx_medium_twice (m : Machine) (p0 r q0 s : Nat) (ps qs : List Nat)
    (hpc : m.pc = Loc.onFalling) (hmode : m.mode ≠ 0) (hon : m.state ≠ 0)
    (hp0 : pressed p0) (hps : ∀ p ∈ ps, pressed p) (hr : ¬ pressed r)
    (hlo : 100 < ps.length) (hhi : ps.length < 500)
    (hq0 : pressed q0) (hqs : ∀ q ∈ qs, pressed q) (hs : ¬ pressed s)
    (hlo2 : 100 < qs.length) (hhi2 : qs.length < 500) :
    (run (run m (p0 :: ps ++ [r])) (q0 :: qs ++ [s])).eeprom 2 = lnot (lnot (m.eeprom 2)) ∧
    turboOut (run (run m (p0 :: ps ++ [r])) (q0 :: qs ++ [s])) =
      (if m.eeprom 2 = 0 then 0 else 1) ∧
    (run (run m (p0 :: ps ++ [r])) (q0 :: qs ++ [s])).pc = Loc.onFalling ∧
    (run (run m (p0 :: ps ++ [r])) (q0 :: qs ++ [s])).state = m.state ∧
    psonOut (run (run m (p0 :: ps ++ [r])) (q0 :: qs ++ [s])) = psonOut m := by
  have h1 := run_atx_medium m p0 r ps hpc hmode hon hp0 hps hr hlo hhi
  have h2 := run_atx_medium (run m (p0 :: ps ++ [r])) q0 s qs (by rw [h1]) (by rw [h1]; exact hmode)
    (by rw [h1]; exact hon) hq0 hqs hs hlo2 hhi2
  rw [h2, h1]
  unfold turboOut psonOut
  simp only [Function.update_same, bitRead_bitWrite_self _ TURBO _ (by norm_num),
    bitRead_bitWrite_other _ TURBO PSON _ (by norm_num) (by norm_num) (by norm_num)]
  by_cases he : m.eeprom 2 = 0 <;> simp [lnot, he]

/-! ## Counting EEPROM writes -/

theorem writesTo_append (a : Nat) (l1 l2 : List Event) :
    writesTo a (l1 ++ l2) = writesTo a l1 + writesTo a l2 := by
  unfold writesTo; exact List.countP_append _ l1 l2

theorem writesTo_atxPollLog (d k : Nat) :
    writesTo 1 (atxPollLog d k) = if 500 < k % 65530 then 1 else 0 := by
  unfold atxPollLog writesTo
  split <;> simp [List.countP_cons, isWriteTo]

/-- The hold loop writes byte 1 once per poll whose counter value exceeds 500. -/
theorem writesTo_atxHoldLog (d n : Nat) :
    writesTo 1 (atxHoldLog d n) =
      (List.range' 1 n).countP (fun k => decide (500 < k % 65530)) := by
  induction n with
  | zero => simp [atxHoldLog, writesTo]
  | succ n ih =>
    rw [atxHoldLog_succ, writesTo_append, ih, writesTo_atxPollLog, List.range'_1_concat,
      List.countP_append]
    by_cases h : 500 < (n + 1) % 65530 <;> simp [List.countP_cons, h, Nat.add_comm]

theorem writesTo_atxHoldLog_lt (d n : Nat) (hn : n < 65530) :
    writesTo 1 (atxHoldLog d n) = n - 500 := by
  induction n with
  | zero => simp [atxHoldLog, writesTo]
  | succ n ih =>
    have hm : (n + 1) % 65530 = n + 1 := by omega
    rw [atxHoldLog_succ, writesTo_append, ih (by omega), writesTo_atxPollLog, hm]
    split <;> omega

/-! ## What a step reads and writes -/

/-- In instant mode a step leaves `DDRB` bit `TURBO` and byte 2 alone and reads
no EEPROM byte. -/
theorem step_instant_turbo (m : Machine) (p : Nat) (hmode : m.mode = 0) :
    turboOut (step m p) = turboOut m ∧ (step m p).eeprom 2 = m.eeprom 2 ∧
    ∃ l, (step m p).log = m.log ++ l ∧ ∀ e ∈ l, ∀ a, e ≠ Event.eepromRead a := by
  unfold turboOut
  have hs := bitRead_bitWrite_other m.DDRB PSON TURBO 1 (by norm_num) (by norm_num) (by norm_num)
  have hc := bitRead_bitWrite_other m.DDRB PSON TURBO 0 (by norm_num) (by norm_num) (by norm_num)
  cases hpc : m.pc <;> simp only [step, hpc] <;> split_ifs <;>
    simp_all [Machine.delay_ms, Machine.setDDRB, Machine.eeprom_write_byte,
      Machine.eeprom_read_byte, loopTop_eq, afterFirstIf_eq]

/-- The EEPROM writes of one step: byte 1 receives the new `state`, which is 0 or
1, byte 2 receives the negation of its previous value; a byte that is written
ends as 0 or 1, and a byte that holds 0 or 1 still does after the step. -/
theorem step_writes (m : Machine) (p : Nat) :
    ∃ l, (step m p).log = m.log ++ l ∧
      (∀ a v, Event.eepromWrite a v ∈ l →
        ((a = 1 ∧ v = (step m p).state) ∨ (a = 2 ∧ v = lnot (m.eeprom 2))) ∧
        (v = 0 ∨ v = 1) ∧ (step m p).eeprom a = v) ∧
      (∀ a, (m.eeprom a = 0 ∨ m.eeprom a = 1) →
        ((step m p).eeprom a = 0 ∨ (step m p).eeprom a = 1)) := by
  have hl : lnot (m.eeprom 2) = 0 ∨ lnot (m.eeprom 2) = 1 := by
    unfold lnot; split <;> simp
  cases hpc : m.pc <;> simp only [step, hpc] <;> split_ifs <;>
    simp_all [Machine.delay_ms, Machine.setDDRB, Machine.eeprom_write_byte,
      Machine.eeprom_read_byte, loopTop_eq, afterFirstIf_eq, Function.update_apply] <;>
    (intro a ha
     by_cases h1 : a = 1 <;> by_cases h2 : a = 2 <;> simp_all)

theorem step_writesNormalised (m : Machine) (p : Nat) (h : writesNormalised m) :
    writesNormalised (step m p) := by
  obtain ⟨l, hlog, hw, hk⟩ := step_writes m p
  intro a v hmem
  rw [hlog, List.mem_append] at hmem
  rcases hmem with hmem | hmem
  · exact ⟨(h a v hmem).1, hk a (h a v hmem).2⟩
  · obtain ⟨h1, h2, h3⟩ := hw a v hmem
    refine ⟨⟨?_, h2⟩, ?_⟩
    · rcases h1 with h1 | h1
      · exact Or.inl h1.1
      · exact Or.inr h1.1
    · rw [h3]; exact h2

/-- The boot sequence leaves the EEPROM as it was. -/
theorem boot_eeprom (PINB DDRB0 PORTB0 : Nat) (eeprom0 : Nat → Nat) :
    (boot PINB DDRB0 PORTB0 eeprom0).eeprom = eeprom0 := by
  by_cases hl : bitRead PINB JMP_LASTSTATE = 0
  · rw [boot_noload PINB DDRB0 PORTB0 eeprom0 hl]
  · exact (boot_load PINB DDRB0 PORTB0 eeprom0 hl).2.2.2.1

/-- The boot sequence writes no EEPROM byte. -/
theorem boot_writesNormalised (PINB DDRB0 PORTB0 : Nat) (eeprom0 : Nat → Nat) :
    writesNormalised (boot PINB DDRB0 PORTB0 eeprom0) := by
  intro a v hmem
  exfalso
  by_cases hl : bitRead PINB JMP_LASTSTATE = 0
  · rw [boot_noload PINB DDRB0 PORTB0 eeprom0 hl] at hmem
    simp at hmem
  · by_cases hs : eeprom0 1 = 0 <;>
      simp [boot, hl, hs, Machine.delay_ms, Machine.setDDRB, Machine.setPORTB,
        Machine.eeprom_read_byte, loopTop_eq, afterFirstIf_eq] at hmem

/-! ## One continuous hold -/

/-- After a released sample the machine waits for a press, at line 74 or 91. -/
theorem step_released_pc (m : Machine) (r : Nat) (hr : ¬ pressed r) :
    (step m r).pc = Loc.offFalling ∨ (step m r).pc = Loc.onFalling := by
  unfold pressed at hr
  cases hpc : m.pc <;> simp only [step, hpc] <;> split_ifs <;>
    simp_all [Machine.delay_ms, Machine.setDDRB, Machine.eeprom_write_byte,
      Machine.eeprom_read_byte, loopTop_eq, afterFirstIf_eq] <;>
    exact Classical.em _

/-- The wait of line 91 is only entered with `state ≠ 0`. -/
theorem step_onFalling_state (m : Machine) (p : Nat)
    (h : m.pc = Loc.onFalling → m.state ≠ 0) :
    (step m p).pc = Loc.onFalling → (step m p).state ≠ 0 := by
  cases hpc : m.pc <;> simp only [step, hpc] <;> split_ifs <;>
    simp_all [Machine.delay_ms, Machine.setDDRB, Machine.eeprom_write_byte,
      Machine.eeprom_read_byte, loopTop_eq, afterFirstIf_eq]

theorem boot_pc (PINB DDRB0 PORTB0 : Nat) (eeprom0 : Nat → Nat) :
    ((boot PINB DDRB0 PORTB0 eeprom0).pc = Loc.offFalling ∨
      (boot PINB DDRB0 PORTB0 eeprom0).pc = Loc.onFalling) ∧
    ((boot PINB DDRB0 PORTB0 eeprom0).pc = Loc.onFalling →
      (boot PINB DDRB0 PORTB0 eeprom0).state ≠ 0) := by
  by_cases hl : bitRead PINB JMP_LASTSTATE = 0
  · rw [boot_noload PINB DDRB0 PORTB0 eeprom0 hl]
    simp
  · obtain ⟨h1, -, -, -, h5⟩ := boot_load PINB DDRB0 PORTB0 eeprom0 hl
    rw [h1, h5]
    by_cases hs : eeprom0 1 = 0 <;> simp [hs]

/-- A nonempty initial segment of a hold is a press followed by pressed samples. -/
theorem take_pressed (ps : List Nat) (hps : ∀ p ∈ ps, pressed p) (k : Nat)
    (hk1 : 1 ≤ k) (hk : k ≤ ps.length) :
    ∃ p0 qs, ps.take k = p0 :: qs ∧ pressed p0 ∧ (∀ q ∈ qs, pressed q) ∧
      qs.length = k - 1 := by
  cases ps with
  | nil => simp at hk; omega
  | cons p ps =>
    obtain ⟨j, rfl⟩ : ∃ j, k = j + 1 := ⟨k - 1, by omega⟩
    refine ⟨p, ps.take j, by simp, hps p (by simp), ?_, ?_⟩
    · intro q hq
      exact hps q (List.mem_cons_of_mem _ (List.mem_of_mem_take hq))
    · simp only [List.length_cons] at hk
      simp; omega

/-- State and power-enable output inside a hold that starts at line 74 or 91. -/
theorem hold_point (m : Machine) (ps : List Nat) (hps : ∀ p ∈ ps, pressed p) (k : Nat)
    (hk1 : 1 ≤ k) (hk : k ≤ ps.length) :
    (m.pc = Loc.offFalling →
      (run m (ps.take k)).state = 1 ∧ psonOut (run m (ps.take k)) = 1) ∧
    (m.pc = Loc.onFalling → m.mode = 0 →
      (run m (ps.take k)).state = 0 ∧ psonOut (run m (ps.take k)) = 0) ∧
    (m.pc = Loc.onFalling → m.mode ≠ 0 →
      (run m (ps.take k)).state = (if 500 < k - 1 then 0 else m.state) ∧
      psonOut (run m (ps.take k)) = (if 500 < k - 1 then 0 else psonOut m)) := by
  obtain ⟨p0, qs, htake, hp0, hqs, hlen⟩ := take_pressed ps hps k hk1 hk
  rw [htake]
  refine ⟨?_, ?_, ?_⟩
  · intro hpc
    rw [run_off_press_hold m p0 qs hpc hp0 hqs]
    exact ⟨rfl, bitRead_bitSet_self _ PSON (by norm_num)⟩
  · intro hpc hmode
    rw [run_instant_press_hold m p0 qs hpc hmode hp0 hqs]
    exact ⟨rfl, bitRead_bitClear_self _ PSON (by norm_num)⟩
  · intro hpc hmode
    rw [run_atx_press_hold m p0 qs hpc hmode hp0 hqs, hlen]
    unfold psonOut
    by_cases h5 : 500 < k - 1
    · rw [if_pos h5, if_pos h5]
      simp only [h5, if_true]
      exact ⟨trivial, bitRead_bitClear_self _ PSON (by norm_num)⟩
    · rw [if_neg h5, if_neg h5]
      simp only [h5, if_false]
      exact ⟨trivial, trivial⟩

/-- One continuous hold from a machine waiting for a press: the power-enable
output changes at most once, and once `state` is 0 inside the hold it stays 0
with the output off. -/
theorem hold_from (m : Machine) (hpc : m.pc = Loc.offFalling ∨ m.pc = Loc.onFalling)
    (hst : m.pc = Loc.onFalling → m.state ≠ 0) (ps : List Nat) (hps : ∀ p ∈ ps, pressed p) :
    (∃ c b, 1 ≤ c ∧ ∀ k, k ≤ ps.length →
      psonOut (run m (ps.take k)) = if k < c then psonOut m else b) ∧
    (∀ i j, 1 ≤ i → i ≤ j → j ≤ ps.length → (run m (ps.take i)).state = 0 →
      (run m (ps.take j)).state = 0 ∧ psonOut (run m (ps.take j)) = 0) := by
  rcases hpc with hpc | hpc
  · constructor
    · refine ⟨1, 1, le_refl 1, ?_⟩
      intro k hk
      by_cases hk0 : k = 0
      · subst hk0; simp [run_nil]
      · rw [((hold_point m ps hps k (by omega) hk).1 hpc).2, if_neg (by omega)]
    · intro i j hi hij hj h0
      rw [((hold_point m ps hps i hi (by omega)).1 hpc).1] at h0
      exact absurd h0 (by norm_num)
  · by_cases hmode : m.mode = 0
    · constructor
      · refine ⟨1, 0, le_refl 1, ?_⟩
        intro k hk
        by_cases hk0 : k = 0
        · subst hk0; simp [run_nil]
        · rw [((hold_point m ps hps k (by omega) hk).2.1 hpc hmode).2, if_neg (by omega)]
      · intro i j hi hij hj _
        exact (hold_point m ps hps j (by omega) hj).2.1 hpc hmode
    · constructor
      · refine ⟨502, 0, by norm_num, ?_⟩
        intro k hk
        by_cases hk0 : k = 0
        · subst hk0; simp [run_nil]
        · rw [((hold_point m ps hps k (by omega) hk).2.2 hpc hmode).2]
          by_cases h5 : 500 < k - 1
          · rw [if_pos h5, if_neg (by omega)]
          · rw [if_neg h5, if_pos (by omega)]
      · intro i j hi hij hj h0
        rw [((hold_point m ps hps i hi (by omega)).2.2 hpc hmode).1] at h0
        have h5 : 500 < i - 1 := by
          by_contra hn
          rw [if_neg hn] at h0
          exact hst hpc h0
        have h6 : 500 < j - 1 := by omega
        obtain ⟨h1, h2⟩ := (hold_point m ps hps j (by omega) hj).2.2 hpc hmode
        rw [h1, h2, if_pos h6, if_pos h6]
        exact ⟨rfl, rfl⟩

theorem loopTop_pc (m : Machine) :
    (loopTop m).pc = if m.state = 0 then Loc.offFalling else Loc.onFalling := by
  rw [loopTop_eq]

/-- The release after a hold that started at line 91 and ended with `state = 0`:
the machine waits at line 74, still off. -/
theorem hold_release (m : Machine) (p0 r : Nat) (qs : List Nat)
    (hpc : m.pc = Loc.onFalling) (hp0 : pressed p0) (hqs : ∀ q ∈ qs, pressed q)
    (hr : ¬ pressed r) (h0 : (run m (p0 :: qs)).state = 0) :
    (run m (p0 :: qs ++ [r])).pc = Loc.offFalling ∧
    (run m (p0 :: qs ++ [r])).state = 0 ∧
    psonOut (run m (p0 :: qs ++ [r])) = psonOut (run m (p0 :: qs)) := by
  by_cases hmode : m.mode = 0
  · have hh := run_instant_press_hold m p0 qs hpc hmode hp0 hqs
    rw [run_snoc, step_onRising_instant_released _ r (by rw [hh]) (by rw [hh]; exact hmode) hr,
      loopTop_pc, loopTop_state, psonOut_loopTop, h0]
    exact ⟨rfl, rfl, rfl⟩
  · rw [run_atx_gesture m p0 r qs hpc hmode hp0 hqs hr, loopTop_pc, loopTop_state,
      psonOut_loopTop]
    split
    · have hs : (toggleTurbo (run m (p0 :: qs))).state = 0 := h0
      rw [hs, psonOut_toggleTurbo]
      exact ⟨rfl, rfl, rfl⟩
    · rw [h0]
      exact ⟨rfl, rfl, rfl⟩

/-! ## Claims -/

/-- C1. ATX mode, power-off threshold.  A gesture starts at line 91 in the On
state with `mode ≠ 0`: a pressed sample, then `ps.length` polls of the hold loop with
the button pressed, then a released sample.  (1) At release `state` is 0 iff more
than 500 polls were made.  (2) After each of the first 500 polls the machine is
still inside the hold loop with `state`, `DDRB` and the EEPROM untouched and
nothing but delays logged.  (3) After poll 501 and every later poll the machine is
inside the hold loop with `state = 0`, the power-enable output off and byte 1
equal to 0.  (4) Poll 501 itself clears the output bit and writes 0 to byte 1. -/
theorem atx_power_off_threshold (m : Machine) (p0 r : Nat) (ps : List Nat)
    (hpc : m.pc = Loc.onFalling) (hmode : m.mode ≠ 0) (hon : m.state ≠ 0)
    (hp0 : pressed p0) (hps : ∀ p ∈ ps, pressed p) (hr : ¬ pressed r) :
    ((run m (p0 :: ps ++ [r])).state = 0 ↔ 500 < ps.length) ∧
    (∀ k, k ≤ ps.length → k ≤ 500 →
      (run m (p0 :: ps.take k)).pc = Loc.onRising ∧
      (run m (p0 :: ps.take k)).state = m.state ∧
      (run m (p0 :: ps.take k)).DDRB = m.DDRB ∧
      (run m (p0 :: ps.take k)).eeprom = m.eeprom ∧
      (run m (p0 :: ps.take k)).log = m.log ++ List.replicate (k + 1) (Event.delay 10)) ∧
    (∀ k, k ≤ ps.length → 501 ≤ k →
      (run m (p0 :: ps.take k)).pc = Loc.onRising ∧
      (run m (p0 :: ps.take k)).state = 0 ∧
      psonOut (run m (p0 :: ps.take k)) = 0 ∧
      (run m (p0 :: ps.take k)).eeprom 1 = 0) ∧
    (501 ≤ ps.length →
      (run m (p0 :: ps.take 501)).log =
        (run m (p0 :: ps.take 500)).log ++
          [Event.ddrb (bitClear m.DDRB PSON), Event.eepromWrite 1 0, Event.delay 10] ∧
      bitRead (bitClear m.DDRB PSON) PSON = 0) := by
  refine ⟨?_, ?_, ?_, ?_⟩
  · rw [run_atx_gesture m p0 r ps hpc hmode hp0 hps hr, run_atx_press_hold m p0 ps hpc hmode hp0 hps,
      loopTop_eq]
    by_cases h5 : 500 < ps.length
    · by_cases ht : ps.length % 65530 < 500 ∧ 100 < ps.length % 65530 <;>
        simp [h5, ht, toggleTurbo]
    · have hm : ps.length % 65530 = ps.length := by omega
      by_cases ht : ps.length < 500 ∧ 100 < ps.length <;>
        simp [h5, hm, ht, toggleTurbo, hon]
  · intro k hk hk5
    have hlen : (ps.take k).length = k := by simp [hk]
    have h5 : ¬ 500 < k := by omega
    rw [run_atx_press_hold m p0 _ hpc hmode hp0 (pressed_of_mem_take ps k hps), hlen]
    simp [h5, atxHoldLog_short _ k hk5, List.replicate_succ]
  · intro k hk hk5
    have hlen : (ps.take k).length = k := by simp [hk]
    have h5 : 500 < k := by omega
    rw [run_atx_press_hold m p0 _ hpc hmode hp0 (pressed_of_mem_take ps k hps), hlen]
    simp [h5, psonOut, bitRead_bitClear_self _ PSON (by norm_num)]
  · intro h
    have hlen1 : (ps.take 501).length = 501 := by simp [h]
    have hlen0 : (ps.take 500).length = 500 := by simp; omega
    rw [run_atx_press_hold m p0 _ hpc hmode hp0 (pressed_of_mem_take ps 501 hps), hlen1,
      run_atx_press_hold m p0 _ hpc hmode hp0 (pressed_of_mem_take ps 500 hps), hlen0]
    have e : atxHoldLog m.DDRB 501 = atxHoldLog m.DDRB 500 ++
        [Event.ddrb (bitClear m.DDRB PSON), Event.eepromWrite 1 0, Event.delay 10] := by
      rw [show (501 : Nat) = 500 + 1 from rfl, atxHoldLog_succ, atxPollLog]
      norm_num
    rw [e]
    refine ⟨?_, bitRead_bitClear_self _ PSON (by norm_num)⟩
    simp only [List.append_assoc]

/-- Witness for C1: ATX mode, `lastStateSave = 0`, a hold of 600 polls. -/
theorem atx_power_off_threshold_witness :
    ((run (main 0b10010 0 0 (fun _ => 0) [0, 16]) (0 :: List.replicate 600 0 ++ [16])).state = 0
        ↔ 500 < (List.replicate 600 0).length) ∧
      (run (main 0b10010 0 0 (fun _ => 0) [0, 16]) (0 :: (List.replicate 600 0).take 500)).state = 1 ∧
      (run (main 0b10010 0 0 (fun _ => 0) [0, 16]) (0 :: (List.replicate 600 0).take 501)).state = 0 := by
  have h := atx_power_off_threshold (main 0b10010 0 0 (fun _ => 0) [0, 16]) 0 16
    (List.replicate 600 0) (by decide) (by decide) (by decide) (by decide)
    (by intro p hp; rw [List.eq_of_mem_replicate hp]; decide) (by decide)
  refine ⟨h.1, ?_, ?_⟩
  · exact (h.2.1 500 (by rw [List.length_replicate]; norm_num) (by norm_num)).2.1
  · exact (h.2.2.1 501 (by rw [List.length_replicate]; norm_num) (by norm_num)).2.1

/-- C2. ATX mode, medium hold.  A gesture started at line 91 in the On state
(`state ≠ 0`, power-enable output on) with more than 100 and fewer than 500 polls:
after the release the machine waits at line 91 again, `state` and byte 1 are
unchanged, the power-enable output is still on, byte 2 is 1 if it was 0 and 0 if
it was nonzero, the turbo output equals the new byte 2, and the log shows the
delays followed by exactly one read of byte 2, one store to `DDRB` and one write
of byte 2. -/
theorem atx_medium_hold (m : Machine) (p0 r : Nat) (ps : List Nat)
    (hpc : m.pc = Loc.onFalling) (hmode : m.mode ≠ 0) (hon : m.state ≠ 0)
    (hpson : psonOut m = 1)
    (hp0 : pressed p0) (hps : ∀ p ∈ ps, pressed p) (hr : ¬ pressed r)
    (hlo : 100 < ps.length) (hhi : ps.length < 500) :
    (run m (p0 :: ps ++ [r])).pc = Loc.onFalling ∧
    (run m (p0 :: ps ++ [r])).state = m.state ∧
    (run m (p0 :: ps ++ [r])).state ≠ 0 ∧
    psonOut (run m (p0 :: ps ++ [r])) = 1 ∧
    (run m (p0 :: ps ++ [r])).eeprom 1 = m.eeprom 1 ∧
    (m.eeprom 2 = 0 → (run m (p0 :: ps ++ [r])).eeprom 2 = 1) ∧
    (m.eeprom 2 ≠ 0 → (run m (p0 :: ps ++ [r])).eeprom 2 = 0) ∧
    turboOut (run m (p0 :: ps ++ [r])) = (run m (p0 :: ps ++ [r])).eeprom 2 ∧
    (run m (p0 :: ps ++ [r])).log =
      m.log ++ List.replicate (ps.length + 1) (Event.delay 10) ++
        [Event.eepromRead 2, Event.ddrb (run m (p0 :: ps ++ [r])).DDRB,
          Event.eepromWrite 2 ((run m (p0 :: ps ++ [r])).eeprom 2)] := by
  have hm : ps.length % 65530 = ps.length := by omega
  have h5 : ¬ 500 < ps.length := by omega
  have hg := run_atx_gesture m p0 r ps hpc hmode hp0 hps hr
  rw [hm, if_pos ⟨hhi, hlo⟩, run_atx_press_hold m p0 ps hpc hmode hp0 hps] at hg
  simp only [h5, if_false] at hg
  rw [hg, loopTop_eq]
  have ht := turboOut_toggleTurbo
    { m with pc := Loc.onRising, holdTime := ps.length % 65530,
             log := m.log ++ [Event.delay 10] ++ atxHoldLog m.DDRB ps.length }
  have hp := psonOut_toggleTurbo
    { m with pc := Loc.onRising, holdTime := ps.length % 65530,
             log := m.log ++ [Event.delay 10] ++ atxHoldLog m.DDRB ps.length }
  simp only [turboOut, psonOut] at ht hp hpson ⊢
  refine ⟨?_, ?_, ?_, ?_, ?_, ?_, ?_, ?_, ?_⟩
  · simp [toggleTurbo, hon]
  · simp [toggleTurbo]
  · simpa [toggleTurbo] using hon
  · rw [hp]; exact hpson
  · simp [toggleTurbo]
  · intro h0; simp [toggleTurbo, lnot, h0]
  · intro h0; simp [toggleTurbo, lnot, h0]
  · rw [ht.1]; simp [toggleTurbo]
  · simp [toggleTurbo, atxHoldLog_short _ _ (le_of_lt hhi), List.replicate_succ]

/-- Witness for C2: a hold of 200 polls with byte 2 holding 0xFF switches the
turbo output off. -/
theorem atx_medium_hold_witness :
    (run (main 0b10011 0 0 (fun _ => 0xFF) []) (0 :: List.replicate 200 0 ++ [16])).eeprom 2 = 0 ∧
      turboOut (run (main 0b10011 0 0 (fun _ => 0xFF) []) (0 :: List.replicate 200 0 ++ [16])) = 0 ∧
      psonOut (run (main 0b10011 0 0 (fun _ => 0xFF) []) (0 :: List.replicate 200 0 ++ [16])) = 1 := by
  have h := atx_medium_hold (main 0b10011 0 0 (fun _ => 0xFF) []) 0 16
    (List.replicate 200 0) (by decide) (by decide) (by decide) (by decide) (by decide)
    (by intro p hp; rw [List.eq_of_mem_replicate hp]; decide) (by decide)
    (by rw [List.length_replicate]; norm_num) (by rw [List.length_replicate]; norm_num)
  have h2 := h.2.2.2.2.2.2.1 (by decide)
  exact ⟨h2, by rw [h.2.2.2.2.2.2.2.1, h2], h.2.2.2.1⟩

/-- C3. ATX mode, short hold.  A gesture started at line 91 in the On state
(`state ≠ 0`, power-enable output on) with at most 100 polls, zero polls and
exactly 100 polls included: after the release the machine waits at line 91
again with `state` still nonzero, the power-enable output still on, the turbo
output unchanged, the whole EEPROM (bytes 1 and 2 in particular) unchanged, and
nothing but delays logged. -/
theorem atx_short_hold (m : Machine) (p0 r : Nat) (ps : List Nat)
    (hpc : m.pc = Loc.onFalling) (hmode : m.mode ≠ 0) (hon : m.state ≠ 0)
    (hpson : psonOut m = 1)
    (hp0 : pressed p0) (hps : ∀ p ∈ ps, pressed p) (hr : ¬ pressed r)
    (hd : ps.length ≤ 100) :
    (run m (p0 :: ps ++ [r])).pc = Loc.onFalling ∧
    (run m (p0 :: ps ++ [r])).state = m.state ∧
    (run m (p0 :: ps ++ [r])).state ≠ 0 ∧
    psonOut (run m (p0 :: ps ++ [r])) = 1 ∧
    turboOut (run m (p0 :: ps ++ [r])) = turboOut m ∧
    (run m (p0 :: ps ++ [r])).DDRB = m.DDRB ∧
    (run m (p0 :: ps ++ [r])).eeprom = m.eeprom ∧
    (run m (p0 :: ps ++ [r])).eeprom 1 = m.eeprom 1 ∧
    (run m (p0 :: ps ++ [r])).eeprom 2 = m.eeprom 2 ∧
    (run m (p0 :: ps ++ [r])).log =
      m.log ++ List.replicate (ps.length + 1) (Event.delay 10) := by
  have hm : ps.length % 65530 = ps.length := by omega
  have h5 : ¬ 500 < ps.length := by omega
  have h1 : ¬ (ps.length < 500 ∧ 100 < ps.length) := by omega
  have hg := run_atx_gesture m p0 r ps hpc hmode hp0 hps hr
  rw [hm, if_neg h1, run_atx_press_hold m p0 ps hpc hmode hp0 hps] at hg
  simp only [h5, if_false] at hg
  rw [hg, loopTop_eq]
  simp only [turboOut, psonOut] at hpson ⊢
  refine ⟨?_, ?_, ?_, ?_, ?_, ?_, ?_, ?_, ?_, ?_⟩
  · simp [hon]
  · simp
  · simpa using hon
  · exact hpson
  · simp
  · simp
  · simp
  · simp
  · simp
  · simp [atxHoldLog_short _ _ (by omega : ps.length ≤ 500), List.replicate_succ]

/-- Witness for C3: a hold of exactly 100 polls leaves byte 2 (0xFF) and both
outputs as they were. -/
theorem atx_short_hold_witness :
    (run (main 0b10011 0 0 (fun _ => 0xFF) []) (0 :: List.replicate 100 0 ++ [16])).eeprom 2 = 0xFF ∧
      turboOut (run (main 0b10011 0 0 (fun _ => 0xFF) []) (0 :: List.replicate 100 0 ++ [16])) = 1 ∧
      psonOut (run (main 0b10011 0 0 (fun _ => 0xFF) []) (0 :: List.replicate 100 0 ++ [16])) = 1 := by
  have h := atx_short_hold (main 0b10011 0 0 (fun _ => 0xFF) []) 0 16
    (List.replicate 100 0) (by decide) (by decide) (by decide) (by decide) (by decide)
    (by intro p hp; rw [List.eq_of_mem_replicate hp]; decide) (by decide)
    (by rw [List.length_replicate])
  exact ⟨h.2.2.2.2.2.2.2.2.1, h.2.2.2.2.1, h.2.2.2.1⟩

/-- C4, counterexample.  In ATX mode, On state, a hold of 65631 polls (more than
500): `holdTime` restarts from 0 at poll 65530 and reads 101 at the release, so
the release toggles the turbo: byte 2 goes from 0 to 1 and the turbo output from
off to on. -/
theorem atx_long_hold_turbo_counterexample :
    (main 0b10010 0 0 (fun _ => 0) [0, 16]).pc = Loc.onFalling ∧
    (main 0b10010 0 0 (fun _ => 0) [0, 16]).mode ≠ 0 ∧
    (main 0b10010 0 0 (fun _ => 0) [0, 16]).state ≠ 0 ∧
    500 < (List.replicate 65631 0).length ∧
    (main 0b10010 0 0 (fun _ => 0) [0, 16]).eeprom 2 = 0 ∧
    turboOut (main 0b10010 0 0 (fun _ => 0) [0, 16]) = 0 ∧
    (run (main 0b10010 0 0 (fun _ => 0) [0, 16])
      (0 :: List.replicate 65631 0 ++ [16])).eeprom 2 = 1 ∧
    turboOut (run (main 0b10010 0 0 (fun _ => 0) [0, 16])
      (0 :: List.replicate 65631 0 ++ [16])) = 1 := by
  have hps : ∀ p ∈ List.replicate 65631 0, pressed p := by
    intro p hp; rw [List.eq_of_mem_replicate hp]; decide
  have hg := run_atx_gesture (main 0b10010 0 0 (fun _ => 0) [0, 16]) 0 16
    (List.replicate 65631 0) (by decide) (by decide) (by decide) hps (by decide)
  have hh := run_atx_press_hold (main 0b10010 0 0 (fun _ => 0) [0, 16]) 0
    (List.replicate 65631 0) (by decide) (by decide) (by decide) hps
  rw [List.length_replicate] at hg hh
  rw [if_pos (by norm_num)] at hg
  have ht := turboOut_toggleTurbo
    (run (main 0b10010 0 0 (fun _ => 0) [0, 16]) (0 :: List.replicate 65631 0))
  have he : (run (main 0b10010 0 0 (fun _ => 0) [0, 16])
      (0 :: List.replicate 65631 0)).eeprom 2 = 0 := by
    rw [hh]; simp only [show (500 : Nat) < 65631 by norm_num, if_true]; decide
  rw [he] at ht
  refine ⟨by decide, by decide, by decide, by rw [List.length_replicate]; norm_num,
    by decide, by decide, ?_, ?_⟩
  · rw [hg, loopTop_eeprom]; exact ht.2
  · rw [hg, turboOut_loopTop]; exact ht.1

/-- C4, amended.  In ATX mode, On state, a hold of more than 500 polls whose
count modulo 65530 (the value of `holdTime` at the release) is at most 100 or at
least 500, which covers every count from 501 to 65630: the gesture powers off
and the turbo output and byte 2 after the release equal their values before the
press. -/
theorem atx_long_hold_turbo_unchanged (m : Machine) (p0 r : Nat) (ps : List Nat)
    (hpc : m.pc = Loc.onFalling) (hmode : m.mode ≠ 0)
    (hp0 : pressed p0) (hps : ∀ p ∈ ps, pressed p) (hr : ¬ pressed r)
    (hd : 500 < ps.length)
    (hw : ps.length % 65530 ≤ 100 ∨ 500 ≤ ps.length % 65530) :
    (run m (p0 :: ps ++ [r])).state = 0 ∧
    turboOut (run m (p0 :: ps ++ [r])) = turboOut m ∧
    (run m (p0 :: ps ++ [r])).eeprom 2 = m.eeprom 2 ∧
    (∀ e ∈ (run m (p0 :: ps ++ [r])).log, e ∈ m.log ∨
      e = Event.delay 10 ∨ e = Event.ddrb (bitClear m.DDRB PSON) ∨
      e = Event.eepromWrite 1 0) := by
  have h1 : ¬ (ps.length % 65530 < 500 ∧ 100 < ps.length % 65530) := by omega
  have hg := run_atx_gesture m p0 r ps hpc hmode hp0 hps hr
  rw [if_neg h1, run_atx_press_hold m p0 ps hpc hmode hp0 hps] at hg
  simp only [hd, if_true] at hg
  rw [hg, loopTop_eq]
  refine ⟨rfl, ?_, ?_, ?_⟩
  · exact bitRead_bitClear_other _ PSON TURBO (by norm_num) (by norm_num) (by norm_num)
  · simp
  · intro e he
    simp only [List.mem_append, List.mem_singleton] at he
    rcases he with (he | he) | he
    · exact Or.inl he
    · exact Or.inr (Or.inl he)
    · exact Or.inr (mem_atxHoldLog _ _ _ he)

/-- Witness for C4 amended: a hold of 600 polls with byte 2 holding 0xFF. -/
theorem atx_long_hold_turbo_unchanged_witness :
    (run (main 0b10011 0 0 (fun _ => 0xFF) []) (0 :: List.replicate 600 0 ++ [16])).state = 0 ∧
      turboOut (run (main 0b10011 0 0 (fun _ => 0xFF) []) (0 :: List.replicate 600 0 ++ [16])) = 1 ∧
      (run (main 0b10011 0 0 (fun _ => 0xFF) []) (0 :: List.replicate 600 0 ++ [16])).eeprom 2
        = 0xFF := by
  have h := atx_long_hold_turbo_unchanged (main 0b10011 0 0 (fun _ => 0xFF) []) 0 16
    (List.replicate 600 0) (by decide) (by decide) (by decide)
    (by intro p hp; rw [List.eq_of_mem_replicate hp]; decide) (by decide)
    (by rw [List.length_replicate]; norm_num) (by rw [List.length_replicate]; norm_num)
  exact ⟨h.1, h.2.1, h.2.2.1⟩

/-- C5, counterexample.  In ATX mode, On state, a hold of exactly 500 polls: the
hold loop exits with `holdTime = 500`, yet no power-off has happened: `state` is
still 1 and the power-enable output still on, before and after the release. -/
theorem atx_hold_500_counterexample :
    (run (main 0b10010 0 0 (fun _ => 0) [0, 16]) (0 :: List.replicate 500 0)).pc = Loc.onRising ∧
    500 ≤ (run (main 0b10010 0 0 (fun _ => 0) [0, 16]) (0 :: List.replicate 500 0)).holdTime ∧
    (run (main 0b10010 0 0 (fun _ => 0) [0, 16]) (0 :: List.replicate 500 0)).state = 1 ∧
    psonOut (run (main 0b10010 0 0 (fun _ => 0) [0, 16]) (0 :: List.replicate 500 0)) = 1 ∧
    (run (main 0b10010 0 0 (fun _ => 0) [0, 16]) (0 :: List.replicate 500 0 ++ [16])).state = 1 ∧
    psonOut (run (main 0b10010 0 0 (fun _ => 0) [0, 16])
      (0 :: List.replicate 500 0 ++ [16])) = 1 := by
  have hps : ∀ p ∈ List.replicate 500 0, pressed p := by
    intro p hp; rw [List.eq_of_mem_replicate hp]; decide
  have hg := run_atx_gesture (main 0b10010 0 0 (fun _ => 0) [0, 16]) 0 16
    (List.replicate 500 0) (by decide) (by decide) (by decide) hps (by decide)
  have hh := run_atx_press_hold (main 0b10010 0 0 (fun _ => 0) [0, 16]) 0
    (List.replicate 500 0) (by decide) (by decide) (by decide) hps
  rw [List.length_replicate] at hg hh
  rw [if_neg (by norm_num)] at hg
  simp only [lt_irrefl, if_false] at hh
  rw [hg, loopTop_state, psonOut_loopTop, hh]
  refine ⟨rfl, ?_, ?_, ?_, ?_, ?_⟩
  · show 500 ≤ 500 % 65530
    norm_num
  · decide
  · decide
  · decide
  · decide

/-- C5, amended.  In ATX mode, for a gesture started at line 91: if the hold
loop exits with `holdTime > 500`, the power-off has already happened during the
hold (`state = 0`, power-enable output off, byte 1 equal to 0); if it exits with
`holdTime ≥ 500`, the release changes neither `state` nor `DDRB` nor the EEPROM
and logs nothing; and a hold of exactly 500 polls leaves `state` as it was. -/
theorem atx_release_after_power_down (m : Machine) (p0 r : Nat) (ps : List Nat)
    (hpc : m.pc = Loc.onFalling) (hmode : m.mode ≠ 0)
    (hp0 : pressed p0) (hps : ∀ p ∈ ps, pressed p) (hr : ¬ pressed r) :
    (500 < (run m (p0 :: ps)).holdTime →
      (run m (p0 :: ps)).state = 0 ∧ psonOut (run m (p0 :: ps)) = 0 ∧
      (run m (p0 :: ps)).eeprom 1 = 0) ∧
    (500 ≤ (run m (p0 :: ps)).holdTime →
      (run m (p0 :: ps ++ [r])).state = (run m (p0 :: ps)).state ∧
      (run m (p0 :: ps ++ [r])).DDRB = (run m (p0 :: ps)).DDRB ∧
      (run m (p0 :: ps ++ [r])).eeprom = (run m (p0 :: ps)).eeprom ∧
      (run m (p0 :: ps ++ [r])).log = (run m (p0 :: ps)).log) ∧
    (ps.length = 500 →
      (run m (p0 :: ps)).holdTime = 500 ∧ (run m (p0 :: ps ++ [r])).state = m.state) := by
  have hg := run_atx_gesture m p0 r ps hpc hmode hp0 hps hr
  have hh := run_atx_press_hold m p0 ps hpc hmode hp0 hps
  have hT : (run m (p0 :: ps)).holdTime = ps.length % 65530 := by rw [hh]
  refine ⟨?_, ?_, ?_⟩
  · intro h
    rw [hT] at h
    have h5 : 500 < ps.length := lt_of_lt_of_le h (Nat.mod_le _ _)
    rw [hh]
    simp [h5, psonOut, bitRead_bitClear_self _ PSON (by norm_num)]
  · intro h
    rw [hT] at h
    rw [hg, if_neg (by omega), loopTop_state, loopTop_DDRB, loopTop_eeprom, loopTop_log]
    exact ⟨rfl, rfl, rfl, rfl⟩
  · intro h
    rw [hg, hT, h, if_neg (by norm_num), loopTop_state, hh, h]
    simp

/-- Witness for C5 amended: a hold of 600 polls in ATX mode. -/
theorem atx_release_after_power_down_witness :
    (run (main 0b10010 0 0 (fun _ => 0) [0, 16]) (0 :: List.replicate 600 0)).state = 0 ∧
      (run (main 0b10010 0 0 (fun _ => 0) [0, 16]) (0 :: List.replicate 600 0 ++ [16])).state
        = (run (main 0b10010 0 0 (fun _ => 0) [0, 16]) (0 :: List.replicate 600 0)).state := by
  have hps : ∀ p ∈ List.replicate 600 0, pressed p := by
    intro p hp; rw [List.eq_of_mem_replicate hp]; decide
  have h := atx_release_after_power_down (main 0b10010 0 0 (fun _ => 0) [0, 16]) 0 16
    (List.replicate 600 0) (by decide) (by decide) (by decide) hps (by decide)
  have hT : (run (main 0b10010 0 0 (fun _ => 0) [0, 16]) (0 :: List.replicate 600 0)).holdTime
      = 600 := by
    rw [run_atx_press_hold _ 0 _ (by decide) (by decide) (by decide) hps, List.length_replicate]
  exact ⟨(h.1 (by rw [hT]; norm_num)).1, (h.2.1 (by rw [hT]; norm_num)).1⟩

/-- C6. Instant mode (`mode = 0`), a press detected at line 91, followed by any
number of polls with the button pressed (none included) and a release.  The step
that detects the press sets `state = 0`, switches the power-enable output off and
writes 0 to byte 1, in this order and before the debounce delay; the machine then
sits in the hold loop.  After the release the machine waits at line 74, and its
variables, registers and EEPROM are given by expressions in which the number of
polls does not occur; only the number of logged delays depends on it. -/
theorem instant_power_off (m : Machine) (p0 r : Nat) (ps : List Nat)
    (hpc : m.pc = Loc.onFalling) (hmode : m.mode = 0)
    (hp0 : pressed p0) (hps : ∀ p ∈ ps, pressed p) (hr : ¬ pressed r) :
    (step m p0).pc = Loc.onRising ∧
    (step m p0).state = 0 ∧
    psonOut (step m p0) = 0 ∧
    (step m p0).eeprom 1 = 0 ∧
    (step m p0).log = m.log ++
      [Event.ddrb (bitClear m.DDRB PSON), Event.eepromWrite 1 0, Event.delay 10] ∧
    run m (p0 :: ps ++ [r]) =
      { m with pc := Loc.offFalling, holdTime := 0, state := 0,
               DDRB := bitClear m.DDRB PSON,
               eeprom := Function.update m.eeprom 1 0,
               log := m.log ++ [Event.ddrb (bitClear m.DDRB PSON), Event.eepromWrite 1 0,
                 Event.delay 10] ++ List.replicate ps.length (Event.delay 10) } := by
  have hs := step_onFalling_instant_pressed m p0 hpc hmode hp0
  have hh := run_instant_press_hold m p0 ps hpc hmode hp0 hps
  refine ⟨?_, ?_, ?_, ?_, ?_, ?_⟩
  · rw [hs]
  · rw [hs]
  · rw [hs]; exact bitRead_bitClear_self _ PSON (by norm_num)
  · rw [hs]; simp
  · rw [hs]
  · rw [run_snoc, step_onRising_instant_released _ r (by rw [hh]) (by rw [hh]; exact hmode) hr,
      hh, loopTop_eq]
    simp

/-- Witness for C6: instant mode, a press released before the first poll. -/
theorem instant_power_off_witness :
    (step (main 0b10001 0 0 (fun _ => 0xFF) []) 0).state = 0 ∧
      psonOut (step (main 0b10001 0 0 (fun _ => 0xFF) []) 0) = 0 ∧
      (run (main 0b10001 0 0 (fun _ => 0xFF) []) (0 :: [] ++ [16])).pc = Loc.offFalling := by
  have h := instant_power_off (main 0b10001 0 0 (fun _ => 0xFF) []) 0 16 []
    (by decide) (by decide) (by decide) (by simp) (by decide)
  exact ⟨h.2.1, h.2.2.1, by rw [h.2.2.2.2.2]⟩

/-- C7. Power-on press, for every jumper setting.  A press detected at line 74,
followed by any number of iterations of the wait of line 84 with the button
pressed and a release.  The step that detects the press sets `state = 1` and
switches the power-enable output on; while the button stays pressed the machine
waits at line 84 with `state = 1` and `holdTime` untouched; after the release it
waits at line 91 with `state = 1`, the power-enable output on, `holdTime`, the
turbo output and byte 2 unchanged, and the log holds one store to `DDRB`, one
write of 1 to byte 1 and delays only. -/
theorem power_on_press (m : Machine) (p0 r : Nat) (ps : List Nat)
    (hpc : m.pc = Loc.offFalling)
    (hp0 : pressed p0) (hps : ∀ p ∈ ps, pressed p) (hr : ¬ pressed r) :
    (step m p0).pc = Loc.offRising ∧
    (step m p0).state = 1 ∧
    psonOut (step m p0) = 1 ∧
    (∀ k, k ≤ ps.length →
      (run m (p0 :: ps.take k)).pc = Loc.offRising ∧
      (run m (p0 :: ps.take k)).state = 1 ∧
      psonOut (run m (p0 :: ps.take k)) = 1 ∧
      (run m (p0 :: ps.take k)).holdTime = m.holdTime) ∧
    run m (p0 :: ps ++ [r]) =
      { m with pc := Loc.onFalling, state := 1,
               DDRB := bitSet m.DDRB PSON,
               eeprom := Function.update m.eeprom 1 1,
               log := m.log ++ [Event.ddrb (bitSet m.DDRB PSON), Event.eepromWrite 1 1,
                 Event.delay 100] ++ List.replicate ps.length (Event.delay 1) } ∧
    psonOut (run m (p0 :: ps ++ [r])) = 1 ∧
    turboOut (run m (p0 :: ps ++ [r])) = turboOut m ∧
    (run m (p0 :: ps ++ [r])).eeprom 2 = m.eeprom 2 ∧
    (run m (p0 :: ps ++ [r])).holdTime = m.holdTime := by
  have hs := step_offFalling_pressed m p0 hpc hp0
  have hh := run_off_press_hold m p0 ps hpc hp0 hps
  have hg : run m (p0 :: ps ++ [r]) =
      { m with pc := Loc.onFalling, state := 1,
               DDRB := bitSet m.DDRB PSON,
               eeprom := Function.update m.eeprom 1 1,
               log := m.log ++ [Event.ddrb (bitSet m.DDRB PSON), Event.eepromWrite 1 1,
                 Event.delay 100] ++ List.replicate ps.length (Event.delay 1) } := by
    rw [run_snoc, step_offRising_released _ r (by rw [hh]) hr, hh, afterFirstIf_eq]
    simp
  refine ⟨?_, ?_, ?_, ?_, hg, ?_, ?_, ?_, ?_⟩
  · rw [hs]
  · rw [hs]
  · rw [hs]; exact bitRead_bitSet_self _ PSON (by norm_num)
  · intro k hk
    rw [run_off_press_hold m p0 _ hpc hp0 (pressed_of_mem_take ps k hps)]
    exact ⟨rfl, rfl, bitRead_bitSet_self _ PSON (by norm_num), rfl⟩
  · rw [hg]; exact bitRead_bitSet_self _ PSON (by norm_num)
  · rw [hg]; exact bitRead_bitSet_other _ PSON TURBO (by norm_num) (by norm_num)
  · rw [hg]; simp
  · rw [hg]

/-- Witness for C7: ATX mode, a power-on press held for 600 samples does not
power off again and does not toggle the turbo. -/
theorem power_on_press_witness :
    (run (main 0b10010 0 0 (fun _ => 0) []) (0 :: List.replicate 600 0 ++ [16])).state = 1 ∧
      psonOut (run (main 0b10010 0 0 (fun _ => 0) []) (0 :: List.replicate 600 0 ++ [16])) = 1 ∧
      (run (main 0b10010 0 0 (fun _ => 0) []) (0 :: List.replicate 600 0 ++ [16])).eeprom 2 = 0 := by
  have h := power_on_press (main 0b10010 0 0 (fun _ => 0) []) 0 16 (List.replicate 600 0)
    (by decide) (by decide) (by intro p hp; rw [List.eq_of_mem_replicate hp]; decide) (by decide)
  exact ⟨by rw [h.2.2.2.2.1], h.2.2.2.2.2.1, h.2.2.2.2.2.2.2.1⟩

/-- C8. Persistence round trip.  With `lastStateSave ≠ 0` and a boot from reset
(power-enable bit of `DDRB` clear), take the machine after any sequence of
samples, that is at any evaluation of a loop condition of the control loop.
Booting again from reset on the EEPROM contents of that machine yields the same
`state` and the same power-enable and turbo output levels; when `state ≠ 0` the
second boot ends with the power-enable output on, waiting at line 91, no press
needed. -/
theorem persistence_round_trip (PINB DDRB0 PORTB0 : Nat) (eeprom0 : Nat → Nat)
    (samples : List Nat)
    (hl : bitRead PINB JMP_LASTSTATE ≠ 0) (hd : bitRead DDRB0 PSON = 0) :
    (boot PINB DDRB0 PORTB0 (main PINB DDRB0 PORTB0 eeprom0 samples).eeprom).state =
      (main PINB DDRB0 PORTB0 eeprom0 samples).state ∧
    psonOut (boot PINB DDRB0 PORTB0 (main PINB DDRB0 PORTB0 eeprom0 samples).eeprom) =
      psonOut (main PINB DDRB0 PORTB0 eeprom0 samples) ∧
    turboOut (boot PINB DDRB0 PORTB0 (main PINB DDRB0 PORTB0 eeprom0 samples).eeprom) =
      turboOut (main PINB DDRB0 PORTB0 eeprom0 samples) ∧
    ((main PINB DDRB0 PORTB0 eeprom0 samples).state ≠ 0 →
      (boot PINB DDRB0 PORTB0 (main PINB DDRB0 PORTB0 eeprom0 samples).eeprom).state ≠ 0 ∧
      psonOut (boot PINB DDRB0 PORTB0 (main PINB DDRB0 PORTB0 eeprom0 samples).eeprom) = 1 ∧
      (boot PINB DDRB0 PORTB0 (main PINB DDRB0 PORTB0 eeprom0 samples).eeprom).pc =
        Loc.onFalling) := by
  obtain ⟨hp0, hb0, ht0⟩ := boot_consistent PINB DDRB0 PORTB0 eeprom0 hl hd
  have hp : powerConsistent (main PINB DDRB0 PORTB0 eeprom0 samples) :=
    run_invariant powerConsistent step_powerConsistent _ samples hp0
  have hb : byte1Consistent (main PINB DDRB0 PORTB0 eeprom0 samples) :=
    run_invariant byte1Consistent step_byte1Consistent _ samples hb0
  have ht : turboConsistent (main PINB DDRB0 PORTB0 eeprom0 samples) :=
    run_invariant turboConsistent step_turboConsistent _ samples ht0
  obtain ⟨h1, h2, h3, -, h5⟩ :=
    boot_load PINB DDRB0 PORTB0 (main PINB DDRB0 PORTB0 eeprom0 samples).eeprom hl
  unfold powerConsistent at hp
  unfold byte1Consistent at hb
  unfold turboConsistent at ht
  rw [h1, h2, h3, h5, hp, ht, hb, hd]
  refine ⟨rfl, ?_, rfl, ?_⟩
  · split <;> rfl
  · intro hs
    simp [hs]

/-- Witness for C8: from an empty EEPROM, a power-on press; the reboot comes up
powered on. -/
theorem persistence_round_trip_witness :
    (boot 0b10011 0 0 (main 0b10011 0 0 (fun _ => 0) [0]).eeprom).state = 1 ∧
      psonOut (boot 0b10011 0 0 (main 0b10011 0 0 (fun _ => 0) [0]).eeprom) = 1 := by
  have h := persistence_round_trip 0b10011 0 0 (fun _ => 0) [0] (by decide) (by decide)
  exact ⟨h.1, (h.2.2.2 (by decide)).2.1⟩

/-- C9. Boot from reset (power-enable and turbo bits of `DDRB` clear), for every
EEPROM content.  With `lastStateSave ≠ 0`: `state` is the stored byte 1, so
`state ≠ 0` iff byte 1 ≠ 0; the power-enable output is on iff byte 1 ≠ 0; the
turbo output is on iff byte 2 ≠ 0.  With `lastStateSave = 0`: `state = 0`, both
outputs are off, `DDRB` is untouched, and the log holds no EEPROM access. -/
theorem boot_outputs (PINB DDRB0 PORTB0 : Nat) (eeprom0 : Nat → Nat)
    (hd : bitRead DDRB0 PSON = 0) (ht : bitRead DDRB0 TURBO = 0) :
    (bitRead PINB JMP_LASTSTATE ≠ 0 →
      (boot PINB DDRB0 PORTB0 eeprom0).state = eeprom0 1 ∧
      ((boot PINB DDRB0 PORTB0 eeprom0).state ≠ 0 ↔ eeprom0 1 ≠ 0) ∧
      (psonOut (boot PINB DDRB0 PORTB0 eeprom0) = 1 ↔ eeprom0 1 ≠ 0) ∧
      (psonOut (boot PINB DDRB0 PORTB0 eeprom0) = 0 ↔ eeprom0 1 = 0) ∧
      (turboOut (boot PINB DDRB0 PORTB0 eeprom0) = 1 ↔ eeprom0 2 ≠ 0) ∧
      (turboOut (boot PINB DDRB0 PORTB0 eeprom0) = 0 ↔ eeprom0 2 = 0)) ∧
    (bitRead PINB JMP_LASTSTATE = 0 →
      (boot PINB DDRB0 PORTB0 eeprom0).state = 0 ∧
      psonOut (boot PINB DDRB0 PORTB0 eeprom0) = 0 ∧
      turboOut (boot PINB DDRB0 PORTB0 eeprom0) = 0 ∧
      (boot PINB DDRB0 PORTB0 eeprom0).DDRB = DDRB0 ∧
      (∀ e ∈ (boot PINB DDRB0 PORTB0 eeprom0).log, ∀ a, e ≠ Event.eepromRead a)) := by
  constructor
  · intro hl
    obtain ⟨h1, h2, h3, -, -⟩ := boot_load PINB DDRB0 PORTB0 eeprom0 hl
    rw [h1, h2, h3, hd]
    by_cases hs : eeprom0 1 = 0 <;> by_cases hb : eeprom0 2 = 0 <;> simp [hs, hb]
  · intro hl
    rw [boot_noload PINB DDRB0 PORTB0 eeprom0 hl]
    refine ⟨rfl, hd, ht, rfl, ?_⟩
    intro e he a
    simp only [List.mem_cons, List.mem_singleton, List.not_mem_nil, or_false] at he
    rcases he with he | he | he | he <;> rw [he] <;> simp

/-- Witness for C9: 0xFF in both bytes and `lastStateSave = 1` boots powered on
with turbo on. -/
theorem boot_outputs_witness :
    (boot 0b10011 0 0 (fun _ => 0xFF)).state ≠ 0 ∧
      psonOut (boot 0b10011 0 0 (fun _ => 0xFF)) = 1 ∧
      turboOut (boot 0b10011 0 0 (fun _ => 0xFF)) = 1 := by
  have h := (boot_outputs 0b10011 0 0 (fun _ => 0xFF) (by decide) (by decide)).1 (by decide)
  exact ⟨h.2.1.2 (by decide), h.2.2.1.2 (by decide), h.2.2.2.2.1.2 (by decide)⟩

/-- C10, counterexample.  With `lastStateSave = 0` and byte 1 holding 0 at boot,
the first press writes 1 to byte 1. -/
theorem eeprom_write_gate_counterexample :
    (main 0b10010 0 0 (fun _ => 0) [0]).lastStateSave = 0 ∧
    (main 0b10010 0 0 (fun _ => 0) []).eeprom 1 = 0 ∧
    (main 0b10010 0 0 (fun _ => 0) [0]).eeprom 1 = 1 ∧
    Event.eepromWrite 1 1 ∈ (main 0b10010 0 0 (fun _ => 0) [0]).log := by
  decide

/-- C10, amended.  The jumper gates the loads only.  With `lastStateSave = 0`,
for every sample sequence and either mode: the boot sequence accesses no EEPROM
byte; the control loop takes the same steps as with any other value of
`lastStateSave`, writes included; a press as first sample writes 1 to byte 1;
and every EEPROM byte other than bytes 1 and 2 equals its value at boot at every
point of the run. -/
theorem eeprom_writes_not_gated (PINB DDRB0 PORTB0 : Nat) (eeprom0 : Nat → Nat)
    (samples : List Nat) (hl : bitRead PINB JMP_LASTSTATE = 0) :
    (boot PINB DDRB0 PORTB0 eeprom0).eeprom = eeprom0 ∧
    (∀ e ∈ (boot PINB DDRB0 PORTB0 eeprom0).log,
      ∀ a v, e ≠ Event.eepromRead a ∧ e ≠ Event.eepromWrite a v) ∧
    (∀ p x, step { main PINB DDRB0 PORTB0 eeprom0 samples with lastStateSave := x } p =
      { step (main PINB DDRB0 PORTB0 eeprom0 samples) p with lastStateSave := x }) ∧
    (∀ p ps, samples = p :: ps → pressed p →
      Event.eepromWrite 1 1 ∈ (main PINB DDRB0 PORTB0 eeprom0 samples).log) ∧
    (∀ a, a ≠ 1 → a ≠ 2 → (main PINB DDRB0 PORTB0 eeprom0 samples).eeprom a = eeprom0 a) := by
  have hb := boot_noload PINB DDRB0 PORTB0 eeprom0 hl
  refine ⟨by rw [hb], ?_, fun p x => step_lastStateSave _ p x, ?_, ?_⟩
  · intro e he a v
    rw [hb] at he
    simp only [List.mem_cons, List.mem_singleton, List.not_mem_nil, or_false] at he
    rcases he with he | he | he | he <;> rw [he] <;> simp
  · intro p ps hs hp
    subst hs
    unfold main
    rw [run_cons]
    obtain ⟨l, hlog⟩ := run_log (step (boot PINB DDRB0 PORTB0 eeprom0) p) ps
    rw [hlog, step_offFalling_pressed _ p (by rw [hb]) hp]
    simp
  · intro a h1 h2
    unfold main
    rw [run_eeprom_frame _ samples a h1 h2, hb]

/-- Witness for C10 amended: ATX mode, `lastStateSave = 0`, one power-on press. -/
theorem eeprom_writes_not_gated_witness :
    Event.eepromWrite 1 1 ∈ (main 0b10010 0 0 (fun _ => 0) [0, 16]).log ∧
      (main 0b10010 0 0 (fun _ => 0) [0, 16]).eeprom 0 = 0 := by
  have h := eeprom_writes_not_gated 0b10010 0 0 (fun _ => 0) [0, 16] (by decide)
  exact ⟨h.2.2.2.1 0 [16] rfl (by decide), h.2.2.2.2 0 (by decide) (by decide)⟩


/-- C11, counterexample.  ATX mode, `lastStateSave = 0`, the samples of a
power-on press followed by a hold of 200 polls, run on two EEPROM contents: with
all bytes 0 the turbo output ends on, with all bytes 0xFF it ends off. -/
theorem load_gate_outputs_counterexample :
    (main 0b10010 0 0 (fun _ => 0) []).lastStateSave = 0 ∧
    (main 0b10010 0 0 (fun _ => 0xFF) []).lastStateSave = 0 ∧
    (main 0b10010 0 0 (fun _ => 0) []).mode = (main 0b10010 0 0 (fun _ => 0xFF) []).mode ∧
    turboOut (main 0b10010 0 0 (fun _ => 0)
      ([0, 16] ++ (0 :: List.replicate 200 0 ++ [16]))) = 1 ∧
    turboOut (main 0b10010 0 0 (fun _ => 0xFF)
      ([0, 16] ++ (0 :: List.replicate 200 0 ++ [16]))) = 0 := by
  have hps : ∀ p ∈ List.replicate 200 0, pressed p := by
    intro p hp; rw [List.eq_of_mem_replicate hp]; decide
  have key : ∀ e : Nat → Nat,
      (run (boot 0b10010 0 0 e) [0, 16]).pc = Loc.onFalling →
      (run (boot 0b10010 0 0 e) [0, 16]).mode ≠ 0 →
      turboOut (main 0b10010 0 0 e ([0, 16] ++ (0 :: List.replicate 200 0 ++ [16]))) =
        lnot ((run (boot 0b10010 0 0 e) [0, 16]).eeprom 2) := by
    intro e hpc hmode
    unfold main
    rw [run_append, run_atx_gesture _ 0 16 (List.replicate 200 0) hpc hmode (by decide) hps
      (by decide), List.length_replicate, if_pos (by norm_num), turboOut_loopTop,
      (turboOut_toggleTurbo _).1,
      run_atx_press_hold _ 0 (List.replicate 200 0) hpc hmode (by decide) hps,
      List.length_replicate]
    simp only [show ¬ (500 : Nat) < 200 by norm_num, if_false]
  refine ⟨by decide, by decide, by decide, ?_, ?_⟩
  · rw [key (fun _ => 0) (by decide) (by decide)]; decide
  · rw [key (fun _ => 0xFF) (by decide) (by decide)]; decide

/-- C11, amended.  With `lastStateSave = 0`, take two runs from the same
registers with the same jumpers and the same samples on two EEPROM contents.  At
every point the two machines are at the same program point with the same
`state`, and the power-enable output levels are equal.  The turbo output levels
are equal too when the mode is instant, or when byte 2 is zero in both contents
or nonzero in both. -/
theorem load_gate_outputs (PINB DDRB0 PORTB0 : Nat) (e1 e2 : Nat → Nat)
    (samples : List Nat) (hl : bitRead PINB JMP_LASTSTATE = 0) :
    (main PINB DDRB0 PORTB0 e1 samples).pc = (main PINB DDRB0 PORTB0 e2 samples).pc ∧
    (main PINB DDRB0 PORTB0 e1 samples).state = (main PINB DDRB0 PORTB0 e2 samples).state ∧
    psonOut (main PINB DDRB0 PORTB0 e1 samples) = psonOut (main PINB DDRB0 PORTB0 e2 samples) ∧
    (bitRead PINB JMP_ATXBEHAV = 0 ∨ (e1 2 = 0 ↔ e2 2 = 0) →
      turboOut (main PINB DDRB0 PORTB0 e1 samples) =
        turboOut (main PINB DDRB0 PORTB0 e2 samples)) := by
  have hb1 := boot_noload PINB DDRB0 PORTB0 e1 hl
  have hb2 := boot_noload PINB DDRB0 PORTB0 e2 hl
  have hp : powerEquiv (boot PINB DDRB0 PORTB0 e1) (boot PINB DDRB0 PORTB0 e2) := by
    rw [hb1, hb2]; exact ⟨rfl, rfl, rfl, rfl, rfl⟩
  obtain ⟨h1, -, h3, -, h5⟩ := run_powerEquiv _ _ samples hp
  refine ⟨h1, h3, h5, ?_⟩
  intro h
  have ho : outputEquiv (boot PINB DDRB0 PORTB0 e1) (boot PINB DDRB0 PORTB0 e2) := by
    rw [hb1, hb2]
    refine ⟨rfl, rfl, rfl, rfl, rfl, ?_⟩
    intro hm
    rcases h with h | h
    · exact absurd h hm
    · exact h
  have hr := run_outputEquiv _ _ samples ho
  unfold turboOut main
  rw [hr.2.2.2.2.1]

/-- Witness for C11 amended: ATX mode, byte 2 holding 1 in one run and 0xFF in
the other, a power-on press and a hold of 200 polls. -/
theorem load_gate_outputs_witness :
    psonOut (main 0b10010 0 0 (fun _ => 1) ([0, 16] ++ (0 :: List.replicate 200 0 ++ [16]))) =
      psonOut (main 0b10010 0 0 (fun _ => 0xFF)
        ([0, 16] ++ (0 :: List.replicate 200 0 ++ [16]))) ∧
    turboOut (main 0b10010 0 0 (fun _ => 1) ([0, 16] ++ (0 :: List.replicate 200 0 ++ [16]))) =
      turboOut (main 0b10010 0 0 (fun _ => 0xFF)
        ([0, 16] ++ (0 :: List.replicate 200 0 ++ [16]))) := by
  have h := load_gate_outputs 0b10010 0 0 (fun _ => 1) (fun _ => 0xFF)
    ([0, 16] ++ (0 :: List.replicate 200 0 ++ [16])) (by decide)
  exact ⟨h.2.2.1, h.2.2.2 (Or.inr (by decide))⟩

/-- C12. Power consistency.  After a boot from reset (power-enable bit of `DDRB`
clear), for every jumper setting, EEPROM content and sample sequence, at boot
completion (no sample) and at every later point of the control loop: the
power-enable output is on iff `state ≠ 0`, and off iff `state = 0`; when
`lastStateSave ≠ 0`, byte 1 equals `state`, so it is nonzero iff `state ≠ 0`. -/
theorem power_consistency (PINB DDRB0 PORTB0 : Nat) (eeprom0 : Nat → Nat)
    (samples : List Nat) (hd : bitRead DDRB0 PSON = 0) :
    (psonOut (main PINB DDRB0 PORTB0 eeprom0 samples) = 1 ↔
      (main PINB DDRB0 PORTB0 eeprom0 samples).state ≠ 0) ∧
    (psonOut (main PINB DDRB0 PORTB0 eeprom0 samples) = 0 ↔
      (main PINB DDRB0 PORTB0 eeprom0 samples).state = 0) ∧
    (bitRead PINB JMP_LASTSTATE ≠ 0 →
      (main PINB DDRB0 PORTB0 eeprom0 samples).eeprom 1 =
        (main PINB DDRB0 PORTB0 eeprom0 samples).state ∧
      ((main PINB DDRB0 PORTB0 eeprom0 samples).eeprom 1 ≠ 0 ↔
        (main PINB DDRB0 PORTB0 eeprom0 samples).state ≠ 0)) := by
  have hp : powerConsistent (main PINB DDRB0 PORTB0 eeprom0 samples) :=
    run_invariant powerConsistent step_powerConsistent _ samples
      (boot_powerConsistent PINB DDRB0 PORTB0 eeprom0 hd)
  unfold powerConsistent at hp
  refine ⟨?_, ?_, ?_⟩
  · rw [hp]; split <;> simp [*]
  · rw [hp]; split <;> simp [*]
  · intro hl
    have hb : byte1Consistent (main PINB DDRB0 PORTB0 eeprom0 samples) :=
      run_invariant byte1Consistent step_byte1Consistent _ samples
        (boot_consistent PINB DDRB0 PORTB0 eeprom0 hl hd).2.1
    unfold byte1Consistent at hb
    exact ⟨hb, by rw [hb]⟩

/-- Witness for C12: instant mode, `lastStateSave = 1`, byte 1 holding 0xFF, one
power-off press. -/
theorem power_consistency_witness :
    (psonOut (main 0b10001 0 0 (fun _ => 0xFF) [0]) = 0 ↔
      (main 0b10001 0 0 (fun _ => 0xFF) [0]).state = 0) ∧
    (main 0b10001 0 0 (fun _ => 0xFF) [0]).eeprom 1 =
      (main 0b10001 0 0 (fun _ => 0xFF) [0]).state := by
  have h := power_consistency 0b10001 0 0 (fun _ => 0xFF) [0] (by decide)
  exact ⟨h.2.1, (h.2.2 (by decide)).1⟩

/-- C13, counterexample.  With `lastStateSave = 0` and byte 2 holding 0xFF, at
boot completion and after a power-on press the turbo output is off while byte 2
is nonzero. -/
theorem turbo_consistency_counterexample :
    (main 0b10010 0 0 (fun _ => 0xFF) []).lastStateSave = 0 ∧
    turboOut (main 0b10010 0 0 (fun _ => 0xFF) []) = 0 ∧
    (main 0b10010 0 0 (fun _ => 0xFF) []).eeprom 2 ≠ 0 ∧
    turboOut (main 0b10010 0 0 (fun _ => 0xFF) [0, 16]) = 0 ∧
    (main 0b10010 0 0 (fun _ => 0xFF) [0, 16]).eeprom 2 ≠ 0 := by
  decide

/-- C13, amended.  The turbo output is on iff byte 2 ≠ 0 at every point of the
control loop after `pre`, for every continuation `samples`, in each of three
cases: `lastStateSave ≠ 0`; or `lastStateSave = 0` with a boot from reset (turbo
bit of `DDRB` clear) and byte 2 holding 0; or output and byte 2 agree after
`pre`. -/
theorem turbo_consistency (PINB DDRB0 PORTB0 : Nat) (eeprom0 : Nat → Nat)
    (pre samples : List Nat)
    (h : bitRead PINB JMP_LASTSTATE ≠ 0 ∨
      (bitRead PINB JMP_LASTSTATE = 0 ∧ bitRead DDRB0 TURBO = 0 ∧ eeprom0 2 = 0) ∨
      (turboOut (main PINB DDRB0 PORTB0 eeprom0 pre) = 1 ↔
        (main PINB DDRB0 PORTB0 eeprom0 pre).eeprom 2 ≠ 0)) :
    (turboOut (main PINB DDRB0 PORTB0 eeprom0 (pre ++ samples)) = 1 ↔
      (main PINB DDRB0 PORTB0 eeprom0 (pre ++ samples)).eeprom 2 ≠ 0) ∧
    (turboOut (main PINB DDRB0 PORTB0 eeprom0 (pre ++ samples)) = 0 ↔
      (main PINB DDRB0 PORTB0 eeprom0 (pre ++ samples)).eeprom 2 = 0) := by
  have hpre : turboConsistent (main PINB DDRB0 PORTB0 eeprom0 pre) := by
    rcases h with hl | ⟨hl, hd, he⟩ | hc
    · obtain ⟨-, -, h3, h4, -⟩ := boot_load PINB DDRB0 PORTB0 eeprom0 hl
      exact run_invariant turboConsistent step_turboConsistent _ pre
        (by unfold turboConsistent; rw [h3, h4])
    · refine run_invariant turboConsistent step_turboConsistent _ pre ?_
      rw [boot_noload PINB DDRB0 PORTB0 eeprom0 hl]
      unfold turboConsistent turboOut
      simp [hd, he]
    · unfold turboConsistent
      rcases bitRead_le_one (main PINB DDRB0 PORTB0 eeprom0 pre).DDRB TURBO with h0 | h1
      · unfold turboOut at hc ⊢
        rw [h0] at hc ⊢
        by_cases he : (main PINB DDRB0 PORTB0 eeprom0 pre).eeprom 2 = 0
        · simp [he]
        · exact absurd (hc.2 he) (by norm_num)
      · unfold turboOut at hc ⊢
        rw [h1] at hc ⊢
        simp [hc.1 rfl]
  have hall : turboConsistent (main PINB DDRB0 PORTB0 eeprom0 (pre ++ samples)) := by
    unfold main
    rw [run_append]
    exact run_invariant turboConsistent step_turboConsistent _ samples hpre
  unfold turboConsistent at hall
  rw [hall]
  constructor <;> split <;> simp [*]

/-- Witness for C13 amended: `lastStateSave = 1`, byte 2 holding 0xFF, a
power-off press in instant mode. -/
theorem turbo_consistency_witness :
    (turboOut (main 0b10001 0 0 (fun _ => 0xFF) ([] ++ [0])) = 1 ↔
      (main 0b10001 0 0 (fun _ => 0xFF) ([] ++ [0])).eeprom 2 ≠ 0) := by
  have h := turbo_consistency 0b10001 0 0 (fun _ => 0xFF) [] [0] (Or.inl (by decide))
  exact h.1

/-- C14, counterexample.  ATX mode, `lastStateSave = 0`, byte 2 holding 0xFF:
before the first of two holds of 200 polls the turbo output is off, after the
second release it is on. -/
theorem turbo_involution_counterexample :
    (main 0b10010 0 0 (fun _ => 0xFF) [0, 16]).mode ≠ 0 ∧
    (main 0b10010 0 0 (fun _ => 0xFF) [0, 16]).pc = Loc.onFalling ∧
    turboOut (main 0b10010 0 0 (fun _ => 0xFF) [0, 16]) = 0 ∧
    turboOut (run (run (main 0b10010 0 0 (fun _ => 0xFF) [0, 16])
      (0 :: List.replicate 200 0 ++ [16])) (0 :: List.replicate 200 0 ++ [16])) = 1 := by
  have hps : ∀ p ∈ List.replicate 200 0, pressed p := by
    intro p hp; rw [List.eq_of_mem_replicate hp]; decide
  have h := run_atx_medium_twice (main 0b10010 0 0 (fun _ => 0xFF) [0, 16]) 0 16 0 16
    (List.replicate 200 0) (List.replicate 200 0) (by decide) (by decide) (by decide)
    (by decide) hps (by decide) (by rw [List.length_replicate]; norm_num)
    (by rw [List.length_replicate]; norm_num) (by decide) hps (by decide)
    (by rw [List.length_replicate]; norm_num) (by rw [List.length_replicate]; norm_num)
  refine ⟨by decide, by decide, by decide, ?_⟩
  rw [h.2.1]
  decide

/-- C14, amended.  ATX mode, On state, two consecutive holds of more than 100
and fewer than 500 polls each, for every value of `lastStateSave` and every
EEPROM content.  After the second release byte 2 is zero iff it was zero before
the first press, and the turbo output level equals its level before the first
press whenever output and byte 2 agreed before the first press. -/
theorem turbo_involution (m : Machine) (p0 r q0 s : Nat) (ps qs : List Nat)
    (hpc : m.pc = Loc.onFalling) (hmode : m.mode ≠ 0) (hon : m.state ≠ 0)
    (hp0 : pressed p0) (hps : ∀ p ∈ ps, pressed p) (hr : ¬ pressed r)
    (hlo : 100 < ps.length) (hhi : ps.length < 500)
    (hq0 : pressed q0) (hqs : ∀ q ∈ qs, pressed q) (hs : ¬ pressed s)
    (hlo2 : 100 < qs.length) (hhi2 : qs.length < 500) :
    ((run (run m (p0 :: ps ++ [r])) (q0 :: qs ++ [s])).eeprom 2 = 0 ↔ m.eeprom 2 = 0) ∧
    (turboConsistent m →
      turboOut (run (run m (p0 :: ps ++ [r])) (q0 :: qs ++ [s])) = turboOut m) := by
  obtain ⟨h1, h2, -⟩ := run_atx_medium_twice m p0 r q0 s ps qs hpc hmode hon hp0 hps hr hlo hhi
    hq0 hqs hs hlo2 hhi2
  rw [h1, h2]
  refine ⟨?_, ?_⟩
  · by_cases he : m.eeprom 2 = 0 <;> simp [lnot, he]
  · intro hc
    unfold turboConsistent at hc
    rw [hc]

/-- Witness for C14 amended: `lastStateSave = 1`, byte 2 holding 0xFF, two holds
of 200 polls. -/
theorem turbo_involution_witness :
    turboOut (run (run (main 0b10011 0 0 (fun _ => 0xFF) [])
      (0 :: List.replicate 200 0 ++ [16])) (0 :: List.replicate 200 0 ++ [16])) =
        turboOut (main 0b10011 0 0 (fun _ => 0xFF) []) := by
  have hps : ∀ p ∈ List.replicate 200 0, pressed p := by
    intro p hp; rw [List.eq_of_mem_replicate hp]; decide
  have h := turbo_involution (main 0b10011 0 0 (fun _ => 0xFF) []) 0 16 0 16
    (List.replicate 200 0) (List.replicate 200 0) (by decide) (by decide) (by decide)
    (by decide) hps (by decide) (by rw [List.length_replicate]; norm_num)
    (by rw [List.length_replicate]; norm_num) (by decide) hps (by decide)
    (by rw [List.length_replicate]; norm_num) (by rw [List.length_replicate]; norm_num)
  exact h.2 (by unfold turboConsistent; decide)

/-- C15. Overflow guard.  In an ATX-mode hold started at line 91, after each
number k of polls `holdTime` equals k mod 65530, is below 65530, and its next
16-bit increment does not wrap.  At a poll whose number is a positive multiple of
65530 the counter stood at 65529 before the poll and is 0 after it, the test
`holdTime > 500` is false, and the poll logs nothing but its delay and leaves
`state`, `DDRB` and the EEPROM as they were. -/
theorem hold_timer_overflow_guard (m : Machine) (p0 : Nat) (ps : List Nat)
    (hpc : m.pc = Loc.onFalling) (hmode : m.mode ≠ 0)
    (hp0 : pressed p0) (hps : ∀ p ∈ ps, pressed p) :
    (∀ k, k ≤ ps.length →
      (run m (p0 :: ps.take k)).holdTime = k % 65530 ∧
      (run m (p0 :: ps.take k)).holdTime < 65530 ∧
      ((run m (p0 :: ps.take k)).holdTime + 1) % 65536 =
        (run m (p0 :: ps.take k)).holdTime + 1) ∧
    (∀ k, k + 1 ≤ ps.length → (k + 1) % 65530 = 0 →
      (run m (p0 :: ps.take k)).holdTime = 65529 ∧
      (run m (p0 :: ps.take (k + 1))).holdTime = 0 ∧
      ¬ (run m (p0 :: ps.take (k + 1))).holdTime > ATX_POWERDOWNTIME * 100 ∧
      (run m (p0 :: ps.take (k + 1))).log =
        (run m (p0 :: ps.take k)).log ++ [Event.delay 10] ∧
      (run m (p0 :: ps.take (k + 1))).state = (run m (p0 :: ps.take k)).state ∧
      (run m (p0 :: ps.take (k + 1))).DDRB = (run m (p0 :: ps.take k)).DDRB ∧
      (run m (p0 :: ps.take (k + 1))).eeprom = (run m (p0 :: ps.take k)).eeprom) := by
  have hT : ∀ k, k ≤ ps.length → (run m (p0 :: ps.take k)).holdTime = k % 65530 := by
    intro k hk
    have hlen : (ps.take k).length = k := by simp [hk]
    rw [run_atx_press_hold m p0 _ hpc hmode hp0 (pressed_of_mem_take ps k hps), hlen]
  constructor
  · intro k hk
    rw [hT k hk]
    have := Nat.mod_lt k (show 0 < 65530 by norm_num)
    omega
  · intro k hk hz
    have hlen : (ps.take k).length = k := by simp; omega
    have hlen1 : (ps.take (k + 1)).length = k + 1 := by simp; omega
    have h5 : 500 < k := by omega
    have h6 : 500 < k + 1 := by omega
    rw [hT k (by omega), hT (k + 1) hk, hz]
    refine ⟨by omega, rfl, by norm_num, ?_⟩
    rw [run_atx_press_hold m p0 _ hpc hmode hp0 (pressed_of_mem_take ps (k + 1) hps), hlen1,
      run_atx_press_hold m p0 _ hpc hmode hp0 (pressed_of_mem_take ps k hps), hlen]
    simp only [h5, h6, if_true, atxHoldLog_succ, atxPollLog, hz]
    simp

/-- Witness for C15: a hold of 65530 polls; poll 65530 resets the counter. -/
theorem hold_timer_overflow_guard_witness :
    (run (main 0b10010 0 0 (fun _ => 0) [0, 16])
      (0 :: (List.replicate 65530 0).take (65529 + 1))).holdTime = 0 ∧
    (run (main 0b10010 0 0 (fun _ => 0) [0, 16])
      (0 :: (List.replicate 65530 0).take (65529 + 1))).log =
      (run (main 0b10010 0 0 (fun _ => 0) [0, 16])
        (0 :: (List.replicate 65530 0).take 65529)).log ++ [Event.delay 10] := by
  have h := hold_timer_overflow_guard (main 0b10010 0 0 (fun _ => 0) [0, 16]) 0
    (List.replicate 65530 0) (by decide) (by decide) (by decide)
    (by intro p hp; rw [List.eq_of_mem_replicate hp]; decide)
  have h2 := h.2 65529 (by rw [List.length_replicate]) (by norm_num)
  exact ⟨h2.2.1, h2.2.2.2.1⟩

/-- C17. Repeated power-off writes.  In an ATX-mode gesture started at line 91
with d polls: (1) a poll whose counter value, the poll number modulo 65530,
exceeds 500 stores to `DDRB` and writes 0 to byte 1, every other poll only
delays; (2) between the press and the point after the release, the number of
writes to byte 1 is the number of k in 1..d with k mod 65530 > 500; (3) for
501 ≤ d < 65530 that number is d − 500. -/
theorem repeated_power_off_writes (m : Machine) (p0 r : Nat) (ps : List Nat)
    (hpc : m.pc = Loc.onFalling) (hmode : m.mode ≠ 0)
    (hp0 : pressed p0) (hps : ∀ p ∈ ps, pressed p) (hr : ¬ pressed r) :
    (∀ k, k + 1 ≤ ps.length →
      (run m (p0 :: ps.take (k + 1))).log = (run m (p0 :: ps.take k)).log ++
        (if 500 < (k + 1) % 65530 then
          [Event.ddrb (bitClear m.DDRB PSON), Event.eepromWrite 1 0, Event.delay 10]
        else [Event.delay 10])) ∧
    writesTo 1 (run m (p0 :: ps ++ [r])).log =
      writesTo 1 m.log +
        (List.range' 1 ps.length).countP (fun k => decide (500 < k % 65530)) ∧
    (501 ≤ ps.length → ps.length < 65530 →
      writesTo 1 (run m (p0 :: ps ++ [r])).log = writesTo 1 m.log + (ps.length - 500)) := by
  have hg := run_atx_gesture m p0 r ps hpc hmode hp0 hps hr
  have hh := run_atx_press_hold m p0 ps hpc hmode hp0 hps
  have hw : writesTo 1 (run m (p0 :: ps ++ [r])).log =
      writesTo 1 m.log + writesTo 1 (atxHoldLog m.DDRB ps.length) := by
    rw [hg]
    split
    · rw [loopTop_log, hh]
      simp [toggleTurbo, writesTo_append, writesTo, List.countP_cons, isWriteTo]
    · rw [loopTop_log, hh]
      simp [writesTo_append, writesTo, List.countP_cons, isWriteTo]
  refine ⟨?_, ?_, ?_⟩
  · intro k hk
    have hlen : (ps.take k).length = k := by simp; omega
    have hlen1 : (ps.take (k + 1)).length = k + 1 := by simp; omega
    rw [run_atx_press_hold m p0 _ hpc hmode hp0 (pressed_of_mem_take ps (k + 1) hps), hlen1,
      run_atx_press_hold m p0 _ hpc hmode hp0 (pressed_of_mem_take ps k hps), hlen]
    simp only [atxHoldLog_succ, atxPollLog, List.append_assoc]
  · rw [hw, writesTo_atxHoldLog]
  · intro _ hlt
    rw [hw, writesTo_atxHoldLog_lt _ _ hlt]

/-- Witness for C17: a hold of 600 polls writes byte 1 a hundred times. -/
theorem repeated_power_off_writes_witness :
    writesTo 1 (run (main 0b10010 0 0 (fun _ => 0) [0, 16])
      (0 :: List.replicate 600 0 ++ [16])).log =
      writesTo 1 (main 0b10010 0 0 (fun _ => 0) [0, 16]).log +
        ((List.replicate 600 0).length - 500) := by
  have h := repeated_power_off_writes (main 0b10010 0 0 (fun _ => 0) [0, 16]) 0 16
    (List.replicate 600 0) (by decide) (by decide) (by decide)
    (by intro p hp; rw [List.eq_of_mem_replicate hp]; decide) (by decide)
  exact h.2.2 (by rw [List.length_replicate]; norm_num) (by rw [List.length_replicate]; norm_num)

/-- C18. Instant mode never touches turbo.  With `mode = 0`, for every sample
sequence and EEPROM content: the turbo output and byte 2 at every point of the
run equal their values at the end of the boot sequence (byte 2 its value before
boot), and the events logged after boot contain no EEPROM read. -/
theorem instant_mode_turbo_frame (PINB DDRB0 PORTB0 : Nat) (eeprom0 : Nat → Nat)
    (samples : List Nat) (hm : bitRead PINB JMP_ATXBEHAV = 0) :
    turboOut (main PINB DDRB0 PORTB0 eeprom0 samples) =
      turboOut (boot PINB DDRB0 PORTB0 eeprom0) ∧
    (main PINB DDRB0 PORTB0 eeprom0 samples).eeprom 2 =
      (boot PINB DDRB0 PORTB0 eeprom0).eeprom 2 ∧
    (main PINB DDRB0 PORTB0 eeprom0 samples).eeprom 2 = eeprom0 2 ∧
    ∃ l, (main PINB DDRB0 PORTB0 eeprom0 samples).log =
        (boot PINB DDRB0 PORTB0 eeprom0).log ++ l ∧
      ∀ e ∈ l, ∀ a, e ≠ Event.eepromRead a := by
  have hmode : (boot PINB DDRB0 PORTB0 eeprom0).mode = 0 :=
    (boot_jumpers PINB DDRB0 PORTB0 eeprom0).1.trans hm
  have hinv := run_invariant
    (fun x => x.mode = 0 ∧ turboOut x = turboOut (boot PINB DDRB0 PORTB0 eeprom0) ∧
      x.eeprom 2 = (boot PINB DDRB0 PORTB0 eeprom0).eeprom 2 ∧
      ∃ l, x.log = (boot PINB DDRB0 PORTB0 eeprom0).log ++ l ∧
        ∀ e ∈ l, ∀ a, e ≠ Event.eepromRead a)
    (fun x p hx => by
      obtain ⟨hx0, hx1, hx2, l, hx3, hx4⟩ := hx
      obtain ⟨h1, h2, l2, h3, h4⟩ := step_instant_turbo x p hx0
      refine ⟨(step_jumpers x p).1.trans hx0, h1.trans hx1, h2.trans hx2, l ++ l2, ?_, ?_⟩
      · rw [h3, hx3, List.append_assoc]
      · intro e he
        rcases List.mem_append.1 he with he | he
        · exact hx4 e he
        · exact h4 e he)
    (boot PINB DDRB0 PORTB0 eeprom0) samples ⟨hmode, rfl, rfl, [], by simp, by simp⟩
  obtain ⟨-, h1, h2, h3⟩ := hinv
  refine ⟨h1, h2, ?_, h3⟩
  unfold main
  rw [h2, boot_eeprom]

/-- Witness for C18: instant mode, `lastStateSave = 1`, byte 2 holding 0xFF, a
power-off press held for 600 samples and a power-on press. -/
theorem instant_mode_turbo_frame_witness :
    turboOut (main 0b10001 0 0 (fun _ => 0xFF) (0 :: List.replicate 600 0 ++ [16, 0])) =
      turboOut (boot 0b10001 0 0 (fun _ => 0xFF)) ∧
    (main 0b10001 0 0 (fun _ => 0xFF) (0 :: List.replicate 600 0 ++ [16, 0])).eeprom 2 =
      (fun _ => 0xFF) 2 := by
  have h := instant_mode_turbo_frame 0b10001 0 0 (fun _ => 0xFF)
    (0 :: List.replicate 600 0 ++ [16, 0]) (by decide)
  exact ⟨h.1, h.2.2.1⟩

/-- C19. Stored bytes are normalised.  For every jumper setting, EEPROM content
and sample sequence: (1) every EEPROM write in the log of the run went to byte 1
or byte 2 with value 0 or 1; (2) the writes of the step on the next sample are
a write of the new `state` to byte 1 or a write of the negation of the previous
byte 2 to byte 2, each of value 0 or 1; (3) once a byte has been written it
holds 0 or 1 at every later point of the run. -/
theorem stored_bytes_normalised (PINB DDRB0 PORTB0 : Nat) (eeprom0 : Nat → Nat)
    (samples rest : List Nat) :
    (∀ a v, Event.eepromWrite a v ∈ (main PINB DDRB0 PORTB0 eeprom0 samples).log →
      (a = 1 ∨ a = 2) ∧ (v = 0 ∨ v = 1)) ∧
    (∀ p, ∃ l, (main PINB DDRB0 PORTB0 eeprom0 (samples ++ [p])).log =
        (main PINB DDRB0 PORTB0 eeprom0 samples).log ++ l ∧
      ∀ a v, Event.eepromWrite a v ∈ l →
        ((a = 1 ∧ v = (main PINB DDRB0 PORTB0 eeprom0 (samples ++ [p])).state) ∨
          (a = 2 ∧ v = lnot ((main PINB DDRB0 PORTB0 eeprom0 samples).eeprom 2))) ∧
        (v = 0 ∨ v = 1)) ∧
    (∀ a v, Event.eepromWrite a v ∈ (main PINB DDRB0 PORTB0 eeprom0 samples).log →
      (main PINB DDRB0 PORTB0 eeprom0 (samples ++ rest)).eeprom a = 0 ∨
      (main PINB DDRB0 PORTB0 eeprom0 (samples ++ rest)).eeprom a = 1) := by
  have hq : ∀ s, writesNormalised (main PINB DDRB0 PORTB0 eeprom0 s) := fun s =>
    run_invariant writesNormalised step_writesNormalised _ s
      (boot_writesNormalised PINB DDRB0 PORTB0 eeprom0)
  refine ⟨fun a v h => (hq samples a v h).1, ?_, ?_⟩
  · intro p
    obtain ⟨l, hlog, hw, -⟩ := step_writes (main PINB DDRB0 PORTB0 eeprom0 samples) p
    have hs : main PINB DDRB0 PORTB0 eeprom0 (samples ++ [p]) =
        step (main PINB DDRB0 PORTB0 eeprom0 samples) p := by
      unfold main; rw [run_snoc]
    rw [hs]
    exact ⟨l, hlog, fun a v h => ⟨(hw a v h).1, (hw a v h).2.1⟩⟩
  · intro a v h
    have hs : main PINB DDRB0 PORTB0 eeprom0 (samples ++ rest) =
        run (main PINB DDRB0 PORTB0 eeprom0 samples) rest := by
      unfold main; rw [run_append]
    obtain ⟨l, hl⟩ := run_log (main PINB DDRB0 PORTB0 eeprom0 samples) rest
    refine (hq (samples ++ rest) a v ?_).2
    rw [hs, hl]
    exact List.mem_append_left _ h

/-- C16. One hold, at most one power transition.  For every jumper setting,
registers and EEPROM content at boot, take a run `pre` that is empty or ends with
a released sample, followed by a hold `ps` of pressed samples.  (1) Along the
hold the power-enable output keeps the level it had before the hold up to some
point and one fixed level from that point on: it changes at most once.
(2) Once `state` is 0 after some sample of the hold, `state` stays 0 and the
output stays off for the rest of the hold.  (3) If `state` is 0 at the end of
the hold, the release leaves the machine off, waiting at line 74 for a new
press. -/
theorem one_hold_one_transition (PINB DDRB0 PORTB0 : Nat) (eeprom0 : Nat → Nat)
    (pre ps : List Nat)
    (hpre : pre = [] ∨ ∃ pre0 r0, pre = pre0 ++ [r0] ∧ ¬ pressed r0)
    (hps : ∀ p ∈ ps, pressed p) :
    (∃ c b, 1 ≤ c ∧ ∀ k, k ≤ ps.length →
      psonOut (main PINB DDRB0 PORTB0 eeprom0 (pre ++ ps.take k)) =
        if k < c then psonOut (main PINB DDRB0 PORTB0 eeprom0 pre) else b) ∧
    (∀ i j, 1 ≤ i → i ≤ j → j ≤ ps.length →
      (main PINB DDRB0 PORTB0 eeprom0 (pre ++ ps.take i)).state = 0 →
      (main PINB DDRB0 PORTB0 eeprom0 (pre ++ ps.take j)).state = 0 ∧
      psonOut (main PINB DDRB0 PORTB0 eeprom0 (pre ++ ps.take j)) = 0) ∧
    (∀ r, ¬ pressed r → 1 ≤ ps.length →
      (main PINB DDRB0 PORTB0 eeprom0 (pre ++ ps)).state = 0 →
      (main PINB DDRB0 PORTB0 eeprom0 (pre ++ ps ++ [r])).pc = Loc.offFalling ∧
      (main PINB DDRB0 PORTB0 eeprom0 (pre ++ ps ++ [r])).state = 0 ∧
      psonOut (main PINB DDRB0 PORTB0 eeprom0 (pre ++ ps ++ [r])) = 0) := by
  have hsplit : ∀ s, main PINB DDRB0 PORTB0 eeprom0 (pre ++ s) =
      run (main PINB DDRB0 PORTB0 eeprom0 pre) s := by
    intro s; unfold main; rw [run_append]
  have hst : (main PINB DDRB0 PORTB0 eeprom0 pre).pc = Loc.onFalling →
      (main PINB DDRB0 PORTB0 eeprom0 pre).state ≠ 0 :=
    run_invariant (fun x => x.pc = Loc.onFalling → x.state ≠ 0) step_onFalling_state _ pre
      (boot_pc PINB DDRB0 PORTB0 eeprom0).2
  have hpc : (main PINB DDRB0 PORTB0 eeprom0 pre).pc = Loc.offFalling ∨
      (main PINB DDRB0 PORTB0 eeprom0 pre).pc = Loc.onFalling := by
    rcases hpre with h | ⟨pre0, r0, h, hr0⟩
    · subst h; exact (boot_pc PINB DDRB0 PORTB0 eeprom0).1
    · subst h
      unfold main
      rw [run_snoc]
      exact step_released_pc _ r0 hr0
  obtain ⟨h1, h2⟩ := hold_from (main PINB DDRB0 PORTB0 eeprom0 pre) hpc hst ps hps
  refine ⟨?_, ?_, ?_⟩
  · obtain ⟨c, b, hc, h⟩ := h1
    exact ⟨c, b, hc, fun k hk => by rw [hsplit]; exact h k hk⟩
  · intro i j hi hij hj h0
    rw [hsplit] at h0 ⊢
    exact h2 i j hi hij hj h0
  · intro r hr hlen h0
    rw [hsplit] at h0
    rw [List.append_assoc, hsplit]
    have hend := h2 ps.length ps.length hlen (le_refl _) (le_refl _)
      (by rw [List.take_length]; exact h0)
    rw [List.take_length] at hend
    rcases hpc with hpc | hpc
    · have h1s := ((hold_point _ ps hps ps.length hlen (le_refl _)).1 hpc).1
      rw [List.take_length, h0] at h1s
      exact absurd h1s (by norm_num)
    · cases ps with
      | nil => simp at hlen
      | cons p0 qs =>
        obtain ⟨e1, e2, e3⟩ := hold_release _ p0 r qs hpc (hps p0 (by simp))
          (fun q hq => hps q (List.mem_cons_of_mem _ hq)) hr h0
        exact ⟨e1, e2, e3.trans hend.2⟩

/-- Witness for C16: ATX mode, a power-on press and release, then a hold of 600
samples: `state` is 0 and the output off after the last sample of the hold. -/
theorem one_hold_one_transition_witness :
    (main 0b10010 0 0 (fun _ => 0) ([0] ++ [16] ++ (List.replicate 600 0).take 600)).state = 0 ∧
      psonOut (main 0b10010 0 0 (fun _ => 0)
        ([0] ++ [16] ++ (List.replicate 600 0).take 600)) = 0 := by
  have hps : ∀ p ∈ List.replicate 600 0, pressed p := by
    intro p hp; rw [List.eq_of_mem_replicate hp]; decide
  have h := one_hold_one_transition 0b10010 0 0 (fun _ => 0) ([0] ++ [16]) (List.replicate 600 0)
    (Or.inr ⟨[0], 16, rfl, by decide⟩) hps
  have h502 : (main 0b10010 0 0 (fun _ => 0)
      ([0] ++ [16] ++ (List.replicate 600 0).take 502)).state = 0 := by
    unfold main
    rw [run_append, ((hold_point _ (List.replicate 600 0) hps 502 (by norm_num)
      (by rw [List.length_replicate]; norm_num)).2.2 (by decide) (by decide)).1]
    norm_num
  exact h.2.1 502 600 (by norm_num) (by norm_num) (by rw [List.length_replicate]) h502

end ATXflip
